import Mathlib

/-!
# Lomse: system layouter data structures, score options, note and object-model helpers

A shallow embedding of the parts of `include/lomse_system_layouter.h` and
`src/internal_model/lomse_internal_model.cpp` that the verified properties are about.

Conventions.

* `LUnits` (a typedef of `lomse_basic.h`, which is not among the sources) and the C++
  type `float` are type parameters `LUnits` and `Flt` of the data model.  The operations
  a method uses (`+`, `<=`, ...) are instance arguments of its embedding, so every
  theorem holds for any number type carrying these operations.
* Objects reached through a pointer (`LineEntry*`) live in a store indexed by addresses;
  a container of pointers is a list of addresses.
* A method that modifies `*this` is a function returning the new object.
-/

namespace Lomse

/-! ## LineEntry (lomse_system_layouter.h, lines 113-175) -/

/-- The member variables of class `LineEntry`.  `m_pSO` and `m_pShape` are addresses of
objects owned by the document and the graphic model. -/
structure LineEntry (Flt LUnits : Type) where
  m_fIsBarlineEntry : Bool
  m_pSO : Nat
  m_pShape : Nat
  m_fProlog : Bool
  m_rTimePos : Flt
  m_xLeft : LUnits
  m_uxAnchor : LUnits
  m_xFinal : LUnits
  m_uSize : LUnits
  m_uFixedSpace : LUnits
  m_uVariableSpace : LUnits
  m_fShapeInfoLoaded : Bool

namespace LineEntry

variable {Flt LUnits : Type}

/-- Source: `inline bool is_barline_entry() { return m_fIsBarlineEntry; }` -/
def is_barline_entry (e : LineEntry Flt LUnits) : Bool := e.m_fIsBarlineEntry

/-- Source: `inline bool is_prolog_object() { return m_fProlog; }` -/
def is_prolog_object (e : LineEntry Flt LUnits) : Bool := e.m_fProlog

/-- Source: `inline float get_timepos() { return m_rTimePos; }` -/
def get_timepos (e : LineEntry Flt LUnits) : Flt := e.m_rTimePos

/-- Source: `inline LUnits get_position() { return m_xLeft; }` -/
def get_position (e : LineEntry Flt LUnits) : LUnits := e.m_xLeft

/-- Source: `inline LUnits get_anchor() { return m_uxAnchor; }` -/
def get_anchor (e : LineEntry Flt LUnits) : LUnits := e.m_uxAnchor

/-- Source: `inline LUnits get_x_final() { return m_xFinal; }` -/
def get_x_final (e : LineEntry Flt LUnits) : LUnits := e.m_xFinal

/-- Source: `inline LUnits get_shape_size() { return m_uSize; }` -/
def get_shape_size (e : LineEntry Flt LUnits) : LUnits := e.m_uSize

/-- Source: `LUnits get_fixed_space() { return m_uFixedSpace; }` -/
def get_fixed_space (e : LineEntry Flt LUnits) : LUnits := e.m_uFixedSpace

/-- Source: `inline LUnits get_variable_space() { return m_uVariableSpace; }` -/
def get_variable_space (e : LineEntry Flt LUnits) : LUnits := e.m_uVariableSpace

/-- Source: `inline LUnits get_total_size() { return m_uSize + m_uFixedSpace + m_uVariableSpace; }` -/
def get_total_size [Add LUnits] (e : LineEntry Flt LUnits) : LUnits :=
  e.m_uSize + e.m_uFixedSpace + e.m_uVariableSpace

/-- Source: `inline void set_variable_space(LUnits space) { m_uVariableSpace = space; }` -/
def set_variable_space (e : LineEntry Flt LUnits) (space : LUnits) : LineEntry Flt LUnits :=
  { e with m_uVariableSpace := space }

/-- Source: `inline void set_fixed_space(LUnits space) { m_uFixedSpace = space; }` -/
def set_fixed_space (e : LineEntry Flt LUnits) (space : LUnits) : LineEntry Flt LUnits :=
  { e with m_uFixedSpace := space }

/-- Source: `inline void set_size(LUnits width) { m_uSize = width; }` -/
def set_size (e : LineEntry Flt LUnits) (width : LUnits) : LineEntry Flt LUnits :=
  { e with m_uSize := width }

/-- Source: `inline void set_position(LUnits uPos) { m_xLeft = uPos; }` -/
def set_position (e : LineEntry Flt LUnits) (uPos : LUnits) : LineEntry Flt LUnits :=
  { e with m_xLeft := uPos }

/-- Source: `inline void mark_as_barline_entry() { m_fIsBarlineEntry = true; }` -/
def mark_as_barline_entry (e : LineEntry Flt LUnits) : LineEntry Flt LUnits :=
  { e with m_fIsBarlineEntry := true }

/-- Source: `void update_x_final() { m_xFinal = m_xLeft + get_total_size(); };` -/
def update_x_final [Add LUnits] (e : LineEntry Flt LUnits) : LineEntry Flt LUnits :=
  { e with m_xFinal := e.m_xLeft + e.get_total_size }

/-- A call of one of the public mutators that change the geometry of an entry. -/
inductive Mutator (LUnits : Type) where
  | set_position (uPos : LUnits)
  | set_size (width : LUnits)
  | set_fixed_space (space : LUnits)
  | set_variable_space (space : LUnits)
  | update_x_final

/-- The entry after one mutator call. -/
def applyMutator [Add LUnits] (e : LineEntry Flt LUnits) : Mutator LUnits → LineEntry Flt LUnits
  | .set_position uPos => e.set_position uPos
  | .set_size width => e.set_size width
  | .set_fixed_space space => e.set_fixed_space space
  | .set_variable_space space => e.set_variable_space space
  | .update_x_final => e.update_x_final

/-- The entry after a sequence of mutator calls, executed from left to right. -/
def applyMutators [Add LUnits] (e : LineEntry Flt LUnits) (calls : List (Mutator LUnits)) :
    LineEntry Flt LUnits :=
  calls.foldl applyMutator e

/-- The relation `xFinal = xLeft + total_size` between the getters of an entry. -/
def XFinalInvariant [Add LUnits] (e : LineEntry Flt LUnits) : Prop :=
  e.get_x_final = e.get_position + e.get_total_size

instance [Add LUnits] [DecidableEq LUnits] (e : LineEntry Flt LUnits) :
    Decidable (XFinalInvariant e) := by
  unfold XFinalInvariant
  infer_instance

/-- A call of one of the two space setters. -/
inductive SpaceSetter (LUnits : Type) where
  | set_fixed_space (space : LUnits)
  | set_variable_space (space : LUnits)

/-- The argument passed in a call of a space setter. -/
def SpaceSetter.argument : SpaceSetter LUnits → LUnits
  | .set_fixed_space space => space
  | .set_variable_space space => space

/-- The entry after one call of a space setter. -/
def applySpaceSetter (e : LineEntry Flt LUnits) : SpaceSetter LUnits → LineEntry Flt LUnits
  | .set_fixed_space space => e.set_fixed_space space
  | .set_variable_space space => e.set_variable_space space

/-- The entry after a sequence of calls of the space setters, executed from left to right. -/
def applySpaceSetters (e : LineEntry Flt LUnits) (calls : List (SpaceSetter LUnits)) :
    LineEntry Flt LUnits :=
  calls.foldl applySpaceSetter e

/-- An entry with every number zero and every flag false, over the integers. -/
def zeroEntry : LineEntry Int Int :=
  { m_fIsBarlineEntry := false, m_pSO := 0, m_pShape := 0, m_fProlog := false,
    m_rTimePos := 0, m_xLeft := 0, m_uxAnchor := 0, m_xFinal := 0, m_uSize := 0,
    m_uFixedSpace := 0, m_uVariableSpace := 0, m_fShapeInfoLoaded := false }

end LineEntry

/-! ## LineTable (lomse_system_layouter.h, lines 181-236) -/

/-- The address of a `LineEntry` object (`LineEntry*`). -/
abbrev LineEntryPtr := Nat

/-- The `LineEntry` objects in memory, by address. -/
abbrev EntryStore (Flt LUnits : Type) := LineEntryPtr → LineEntry Flt LUnits

/-- The member variables of class `LineTable`; `m_LineEntries` is
`std::vector<LineEntry*>`. -/
structure LineTable (LUnits : Type) where
  m_LineEntries : List LineEntryPtr
  m_line : Int
  m_nInstr : Int
  m_nVoice : Int
  m_uxLineStart : LUnits
  m_uInitialSpace : LUnits

namespace LineTable

variable {Flt LUnits : Type}

/-- Source: `inline LineEntry* front() { return m_LineEntries.front(); }`; `none` stands for the
undefined result on an empty vector. -/
def front (t : LineTable LUnits) : Option LineEntryPtr := t.m_LineEntries.head?

/-- Source: `inline LineEntry* back() { return m_LineEntries.back(); }`; `none` stands for the
undefined result on an empty vector. -/
def back (t : LineTable LUnits) : Option LineEntryPtr := t.m_LineEntries.getLast?

/-- Source: `inline LineEntry* item(int i) { return m_LineEntries[i]; }`; `none` stands for the
undefined result of an index outside `0 .. size()-1`. -/
def item (t : LineTable LUnits) (i : Int) : Option LineEntryPtr :=
  if 0 ≤ i then t.m_LineEntries[i.toNat]? else none

/-- Source: `inline LineEntry* get_last_entry() { return m_LineEntries.back(); }` -/
def get_last_entry (t : LineTable LUnits) : Option LineEntryPtr := t.m_LineEntries.getLast?

/-- Source: `inline void clear() { m_LineEntries.clear(); }` -/
def clear (t : LineTable LUnits) : LineTable LUnits := { t with m_LineEntries := [] }

/-- Source: `inline void push_back(LineEntry* pEntry) { m_LineEntries.push_back(pEntry); }` -/
def push_back (t : LineTable LUnits) (pEntry : LineEntryPtr) : LineTable LUnits :=
  { t with m_LineEntries := t.m_LineEntries ++ [pEntry] }

/-- Source: `inline LUnits get_line_start_position() { return m_uxLineStart; }` -/
def get_line_start_position (t : LineTable LUnits) : LUnits := t.m_uxLineStart

/-- Source: `inline LUnits get_space_at_beginning() { return m_uInitialSpace; }` -/
def get_space_at_beginning (t : LineTable LUnits) : LUnits := t.m_uInitialSpace

/-- Source: `inline size_t size() { return m_LineEntries.size(); }` -/
def size (t : LineTable LUnits) : Nat := t.m_LineEntries.length

/-- Source: `inline bool is_for_line(int line) { return m_line == line; }` -/
def is_for_line (t : LineTable LUnits) (line : Int) : Bool := t.m_line == line

/-- Source: `inline bool is_line_for_instrument(int nInstr) { return m_nInstr == nInstr; }` -/
def is_line_for_instrument (t : LineTable LUnits) (nInstr : Int) : Bool := t.m_nInstr == nInstr

/-- Source: `inline bool is_line_for_voice(int nVoice) { return m_nVoice == 0 || m_nVoice == nVoice; }` -/
def is_line_for_voice (t : LineTable LUnits) (nVoice : Int) : Bool :=
  t.m_nVoice == 0 || t.m_nVoice == nVoice

/-- Source: `inline bool is_voiced_defined() { return m_nVoice != 0; }` -/
def is_voiced_defined (t : LineTable LUnits) : Bool := t.m_nVoice != 0

/-- Source: `inline void set_voice(int nVoice) { m_nVoice = nVoice; }` -/
def set_voice (t : LineTable LUnits) (nVoice : Int) : LineTable LUnits :=
  { t with m_nVoice := nVoice }

/-- Source: `inline int get_instrument() { return m_nInstr; }` -/
def get_instrument (t : LineTable LUnits) : Int := t.m_nInstr

/-- Source: `inline int get_voice() { return m_nVoice; }` -/
def get_voice (t : LineTable LUnits) : Int := t.m_nVoice

/-- The table with the three entries at addresses 10, 11, 12. -/
def sampleTable : LineTable Int :=
  { m_LineEntries := [10, 11, 12], m_line := 0, m_nInstr := 1, m_nVoice := 0,
    m_uxLineStart := 0, m_uInitialSpace := 0 }

end LineTable

/-! ### A line together with the entries its pointers address -/

/-- The memory holding the entries, and a line table whose vector points into it. -/
structure LineState (Flt LUnits : Type) where
  store : EntryStore Flt LUnits
  line : LineTable LUnits

/-- A call of `LineTable::push_back(p)` on the line, or of
`LineEntry::mark_as_barline_entry()` on the entry at address `p`. -/
inductive LineCall where
  | push_back (p : LineEntryPtr)
  | mark_as_barline_entry (p : LineEntryPtr)

namespace LineState

variable {Flt LUnits : Type}

/-- The state after one call. -/
def call (s : LineState Flt LUnits) : LineCall → LineState Flt LUnits
  | .push_back p => { s with line := s.line.push_back p }
  | .mark_as_barline_entry p =>
      { s with store := Function.update s.store p (s.store p).mark_as_barline_entry }

/-- The state after a sequence of calls, executed from left to right. -/
def calls (s : LineState Flt LUnits) (cs : List LineCall) : LineState Flt LUnits :=
  cs.foldl call s

/-- A line with no entries (the vector of a newly constructed `LineTable`), over the
integers, in a memory where no entry is a barline entry. -/
def emptyLine : LineState Int Int :=
  { store := fun _ => LineEntry.zeroEntry,
    line := { m_LineEntries := [], m_line := 0, m_nInstr := 0, m_nVoice := 0,
              m_uxLineStart := 0, m_uInitialSpace := 0 } }

/-- Every position of the line whose entry is a barline entry is the last position: the
line has at most one barline entry and it is the last entry. -/
def BarlineOnlyLast (s : LineState Flt LUnits) : Prop :=
  ∀ i : Fin s.line.m_LineEntries.length,
    (s.store (s.line.m_LineEntries.get i)).is_barline_entry = true →
      i.val + 1 = s.line.m_LineEntries.length

instance (s : LineState Flt LUnits) : Decidable (BarlineOnlyLast s) := by
  unfold BarlineOnlyLast
  infer_instance

/-- The discipline under which the barline invariant is kept: an entry is pushed only if
it is not yet in the line and no entry of the line is a barline entry (the line is not
closed); an entry is marked as barline entry only if it is the last entry of the line or
is not in the line at all. -/
def Allowed (s : LineState Flt LUnits) : LineCall → Prop
  | .push_back p =>
      p ∉ s.line.m_LineEntries ∧
        ∀ q ∈ s.line.m_LineEntries, (s.store q).is_barline_entry = false
  | .mark_as_barline_entry p =>
      p ∉ s.line.m_LineEntries ∨ s.line.get_last_entry = some p

instance (s : LineState Flt LUnits) (c : LineCall) : Decidable (Allowed s c) := by
  cases c <;> unfold Allowed <;> infer_instance

/-- Every call of the sequence is allowed in the state in which it is made. -/
def AllAllowed : LineState Flt LUnits → List LineCall → Prop
  | _, [] => True
  | s, c :: cs => Allowed s c ∧ AllAllowed (s.call c) cs

instance decideAllAllowed (s : LineState Flt LUnits) (cs : List LineCall) :
    Decidable (AllAllowed s cs) := by
  induction cs generalizing s with
  | nil => exact isTrue trivial
  | cons c cs ih =>
    unfold AllAllowed
    have := ih (s.call c)
    infer_instance

end LineState

/-! ## BreaksTable and BreakPoints (lomse_system_layouter.h, lines 73-106 and 433-452) -/

/-- The struct `BreaksTimeEntry`: an entry of the breaks table. -/
structure BreaksTimeEntry (Flt LUnits : Type) where
  rTimepos : Flt
  rPriority : Flt
  uxStart : LUnits
  uxEnd : LUnits
  fInBeam : Bool
  uxBeam : LUnits

/-- The table of class `BreaksTable`: `std::list<BreaksTimeEntry*> m_BreaksTable`, with the
entries in place of their addresses. -/
structure BreaksTable (Flt LUnits : Type) where
  m_BreaksTable : List (BreaksTimeEntry Flt LUnits)

/-- Source: `inline bool is_empty() { return m_BreaksTable.empty(); }` -/
def BreaksTable.is_empty {Flt LUnits : Type} (t : BreaksTable Flt LUnits) : Bool :=
  t.m_BreaksTable.isEmpty

/-- The members of class `BreakPoints` that the search reads and writes: the table of
possible breaks (`m_pPossibleBreaks`, taken as computed) and the entry found
(`m_pOptimumEntry`, `none` for the null pointer). -/
structure BreakPoints (Flt LUnits : Type) where
  m_pPossibleBreaks : BreaksTable Flt LUnits
  m_pOptimumEntry : Option (BreaksTimeEntry Flt LUnits)

namespace BreakPoints

variable {Flt LUnits : Type}

/-- Modelled from the spec: the order in which two candidate break points are preferred.
Only the declaration of `BreakPoints::find_optimum_break_point_for_space` is among the
sources.  Spec 4.3, step 2: the entry "with lowest priority value that maximizes used space
(tie-break: latest uxEnd)": `a` is preferred to `b` when its priority value is lower, or
the priority values are equal and its `uxEnd` is later. -/
def is_preferred [LinearOrder Flt] [LinearOrder LUnits]
    (a b : BreaksTimeEntry Flt LUnits) : Bool :=
  decide (a.rPriority < b.rPriority) ||
    (decide (a.rPriority = b.rPriority) && decide (b.uxEnd < a.uxEnd))

/-- Modelled from the spec: one pass over the candidates that keeps the preferred entry
seen so far (part of the model of `find_optimum_break_point_for_space`, whose body is not
among the sources). -/
def select_preferred [LinearOrder Flt] [LinearOrder LUnits]
    (best : BreaksTimeEntry Flt LUnits) :
    List (BreaksTimeEntry Flt LUnits) → BreaksTimeEntry Flt LUnits
  | [] => best
  | c :: rest => select_preferred (if is_preferred c best then c else best) rest

/-- Modelled from the spec: `bool BreakPoints::find_optimum_break_point_for_space(LUnits
uAvailable)`, of which only the declaration is among the sources.  Spec 4.3, step 2:
"Select, among entries whose uxEnd <= available, the one with lowest priority value that
maximizes used space (tie-break: latest uxEnd ...). If no entry fits within available at
all, report failure".  The result is the returned flag (`false` reports failure) and the
object with `m_pOptimumEntry` set to the selected entry. -/
def find_optimum_break_point_for_space [LinearOrder Flt] [LinearOrder LUnits]
    (bp : BreakPoints Flt LUnits) (uAvailable : LUnits) : Bool × BreakPoints Flt LUnits :=
  match bp.m_pPossibleBreaks.m_BreaksTable.filter (fun e => decide (e.uxEnd ≤ uAvailable)) with
  | [] => (false, { bp with m_pOptimumEntry := none })
  | c :: rest => (true, { bp with m_pOptimumEntry := some (select_preferred c rest) })

/-- The beam scenario of spec section 8 over the integers, priorities in tenths: break
candidates ending at x = 40, 80, 120, the second one inside a beam with a higher
priority value. -/
def sampleBreaks : BreakPoints Int Int :=
  { m_pPossibleBreaks :=
      { m_BreaksTable :=
          [ { rTimepos := 1, rPriority := 8, uxStart := 0, uxEnd := 40,
              fInBeam := false, uxBeam := 0 },
            { rTimepos := 2, rPriority := 16, uxStart := 40, uxEnd := 80,
              fInBeam := true, uxBeam := 60 },
            { rTimepos := 3, rPriority := 8, uxStart := 80, uxEnd := 120,
              fInBeam := false, uxBeam := 0 } ] },
    m_pOptimumEntry := none }

end BreakPoints

/-! ## Score options (lomse_internal_model.cpp, lines 1689-1714, 1754-1788, 1891-1915) -/

/-- The option types named in `ImoScore::set_defaults_for_options`
(`ImoOptionInfo::k_boolean`, `k_number_long`, `k_number_float`). -/
inductive OptionType where
  | k_boolean
  | k_number_long
  | k_number_float
  deriving DecidableEq, Repr

/-- Modelled from the spec: class `ImoOptionInfo` is declared in lomse_internal_model.h,
which is not among the sources.  An option has what its setters `set_name`, `set_type`,
`set_bool_value`, `set_long_value` and `set_float_value` (called in lomse_internal_model.cpp)
store. -/
structure ImoOptionInfo (Flt : Type) where
  name : String
  type : OptionType
  bool_value : Bool
  long_value : Int
  float_value : Flt

namespace ImoOptionInfo

variable {Flt : Type}

/-- Modelled from the spec: `ImoOptionInfo::set_name` (header not among the sources). -/
def set_name (o : ImoOptionInfo Flt) (name : String) : ImoOptionInfo Flt :=
  { o with name := name }

/-- Modelled from the spec: `ImoOptionInfo::set_type` (header not among the sources). -/
def set_type (o : ImoOptionInfo Flt) (type : OptionType) : ImoOptionInfo Flt :=
  { o with type := type }

/-- Modelled from the spec: `ImoOptionInfo::set_bool_value` (header not among the sources). -/
def set_bool_value (o : ImoOptionInfo Flt) (value : Bool) : ImoOptionInfo Flt :=
  { o with bool_value := value }

/-- Modelled from the spec: `ImoOptionInfo::set_long_value` (header not among the sources). -/
def set_long_value (o : ImoOptionInfo Flt) (value : Int) : ImoOptionInfo Flt :=
  { o with long_value := value }

/-- Modelled from the spec: `ImoOptionInfo::set_float_value` (header not among the sources). -/
def set_float_value (o : ImoOptionInfo Flt) (value : Flt) : ImoOptionInfo Flt :=
  { o with float_value := value }

/-- Modelled from the spec: `ImoOptionInfo::get_name`, used by `ImoScore::get_option`
(header not among the sources). -/
def get_name (o : ImoOptionInfo Flt) : String := o.name

end ImoOptionInfo

/-- The struct `BoolOption`. -/
structure BoolOption where
  sOptName : String
  fBoolValue : Bool

/-- The struct `FloatOption`. -/
structure FloatOption (Flt : Type) where
  sOptName : String
  rFloatValue : Flt

/-- The struct `LongOption`. -/
structure LongOption where
  sOptName : String
  nLongValue : Int

/-- The table `static const BoolOption m_BoolOptions[]`. -/
def m_BoolOptions : List BoolOption :=
  [ { sOptName := "Score.FillPageWithEmptyStaves", fBoolValue := false },
    { sOptName := "StaffLines.StopAtFinalBarline", fBoolValue := true },
    { sOptName := "Score.JustifyFinalBarline", fBoolValue := false },
    { sOptName := "StaffLines.Hide", fBoolValue := false },
    { sOptName := "Staff.DrawLeftBarline", fBoolValue := true } ]

/-- The table `static const FloatOption m_FloatOptions[]`; the literal `0.547f` is the
decimal 0.547 read in the number type `Flt`. -/
def m_FloatOptions (Flt : Type) [OfScientific Flt] : List (FloatOption Flt) :=
  [ { sOptName := "Render.SpacingFactor", rFloatValue := 0.547 } ]

/-- The table `static const LongOption m_LongOptions[]`.  The enumerator
`k_spacing_proportional` is declared in lomse_score_enums.h, which is not among the
sources, and is a parameter. -/
def m_LongOptions (k_spacing_proportional : Int) : List LongOption :=
  [ { sOptName := "Staff.UpperLegerLines.Displacement", nLongValue := 0 },
    { sOptName := "Render.SpacingMethod", nLongValue := k_spacing_proportional },
    { sOptName := "Render.SpacingValue", nLongValue := 15 } ]

/-- The part of an `ImoScore` that the option methods use: the children of its
`k_imo_options` child node, in order (`append_child` adds at the end). -/
structure ImoScore (Flt : Type) where
  options : List (ImoOptionInfo Flt)

namespace ImoScore

variable {Flt : Type}

/-- Source: `ImoScore::add_option`: `pColOpts->append_child(pOpt)`. -/
def add_option (score : ImoScore Flt) (pOpt : ImoOptionInfo Flt) : ImoScore Flt :=
  { score with options := score.options ++ [pOpt] }

/-- Source: `ImoScore::has_options`: `pColOpts->get_num_children() > 0`. -/
def has_options (score : ImoScore Flt) : Bool := decide (score.options.length > 0)

/-- The loop of `ImoScore::get_option` over the children, from `begin()` to `end()`:
the first option whose name is `name`, `none` for `NULL`. -/
def get_option_from (name : String) : List (ImoOptionInfo Flt) → Option (ImoOptionInfo Flt)
  | [] => none
  | pOpt :: rest => if pOpt.get_name = name then some pOpt else get_option_from name rest

/-- Source: `ImoOptionInfo* ImoScore::get_option(const std::string& name)`. -/
def get_option (score : ImoScore Flt) (name : String) : Option (ImoOptionInfo Flt) :=
  get_option_from name score.options

/-- The body of the first loop of `set_defaults_for_options` for one row of
`m_BoolOptions`; `fresh` is the object that `ImFactory::inject(k_imo_option, m_pDoc)`
returns. -/
def add_bool_default (fresh : ImoOptionInfo Flt) (score : ImoScore Flt) (row : BoolOption) :
    ImoScore Flt :=
  score.add_option
    (((fresh.set_name row.sOptName).set_type OptionType.k_boolean).set_bool_value row.fBoolValue)

/-- The body of the second loop of `set_defaults_for_options` for one row of
`m_LongOptions`. -/
def add_long_default (fresh : ImoOptionInfo Flt) (score : ImoScore Flt) (row : LongOption) :
    ImoScore Flt :=
  score.add_option
    (((fresh.set_name row.sOptName).set_type OptionType.k_number_long).set_long_value
      row.nLongValue)

/-- The body of the third loop of `set_defaults_for_options` for one row of
`m_FloatOptions`. -/
def add_float_default (fresh : ImoOptionInfo Flt) (score : ImoScore Flt)
    (row : FloatOption Flt) : ImoScore Flt :=
  score.add_option
    (((fresh.set_name row.sOptName).set_type OptionType.k_number_float).set_float_value
      row.rFloatValue)

/-- Source: `void ImoScore::set_defaults_for_options()`: the three loops, over `m_BoolOptions`,
then `m_LongOptions`, then `m_FloatOptions`. -/
def set_defaults_for_options [OfScientific Flt] (fresh : ImoOptionInfo Flt)
    (k_spacing_proportional : Int) (score : ImoScore Flt) : ImoScore Flt :=
  let afterBool := m_BoolOptions.foldl (add_bool_default fresh) score
  let afterLong := (m_LongOptions k_spacing_proportional).foldl (add_long_default fresh) afterBool
  (m_FloatOptions Flt).foldl (add_float_default fresh) afterLong

/-- A score whose options node has no children, over the rationals. -/
def emptyScore : ImoScore Rat := { options := [] }

/-- An option object as a constructor might leave it, over the rationals. -/
def blankOption : ImoOptionInfo Rat :=
  { name := "", type := OptionType.k_boolean, bool_value := false, long_value := 0,
    float_value := 0 }

end ImoScore

/-! ## Global functions related to notes (lomse_internal_model.cpp, lines 2557-2778)

A `std::string` is the list of its characters.  A read `s[i]` with `i` not below the length
of the string has no defined result; functions that index a string return `none` when they
make such a read. -/

/-- The enumerators for steps and accidentals that `to_step` and `to_accidentals` return.
They are declared in a header that is not among the sources; their integer values are
parameters. -/
structure PitchEnums where
  k_step_A : Int
  k_step_B : Int
  k_step_C : Int
  k_step_D : Int
  k_step_E : Int
  k_step_F : Int
  k_step_G : Int
  k_no_accidentals : Int
  k_sharp : Int
  k_flat : Int
  k_natural : Int
  k_double_sharp : Int
  k_sharp_sharp : Int
  k_flat_flat : Int
  k_natural_flat : Int

/-- No step enumerator and no enumerator of a written accidental has the value -1, which
`to_step` and `to_accidentals` return for an input they do not recognise. -/
def PitchEnums.DistinctFromError (E : PitchEnums) : Prop :=
  E.k_step_A ≠ -1 ∧ E.k_step_B ≠ -1 ∧ E.k_step_C ≠ -1 ∧ E.k_step_D ≠ -1 ∧
  E.k_step_E ≠ -1 ∧ E.k_step_F ≠ -1 ∧ E.k_step_G ≠ -1 ∧
  E.k_sharp ≠ -1 ∧ E.k_flat ≠ -1 ∧ E.k_natural ≠ -1 ∧ E.k_double_sharp ≠ -1 ∧
  E.k_sharp_sharp ≠ -1 ∧ E.k_flat_flat ≠ -1 ∧ E.k_natural_flat ≠ -1

instance (E : PitchEnums) : Decidable E.DistinctFromError := by
  unfold PitchEnums.DistinctFromError
  infer_instance

/-- Sample values for the enumerators: steps C..B numbered 0..6, accidentals numbered
0..7 in the order of the structure. -/
def samplePitchEnums : PitchEnums :=
  { k_step_A := 5, k_step_B := 6, k_step_C := 0, k_step_D := 1, k_step_E := 2,
    k_step_F := 3, k_step_G := 4, k_no_accidentals := 0, k_sharp := 1, k_flat := 2,
    k_natural := 3, k_double_sharp := 4, k_sharp_sharp := 5, k_flat_flat := 6,
    k_natural_flat := 7 }

/-- Source: `int to_step(const char& letter)`: a switch over 'a'..'g', otherwise -1. -/
def to_step (E : PitchEnums) (letter : Char) : Int :=
  if letter = 'a' then E.k_step_A
  else if letter = 'b' then E.k_step_B
  else if letter = 'c' then E.k_step_C
  else if letter = 'd' then E.k_step_D
  else if letter = 'e' then E.k_step_E
  else if letter = 'f' then E.k_step_F
  else if letter = 'g' then E.k_step_G
  else -1

/-- Source: `int to_octave(const char& letter)`: a switch over '0'..'9', otherwise -1. -/
def to_octave (letter : Char) : Int :=
  if letter = '0' then 0
  else if letter = '1' then 1
  else if letter = '2' then 2
  else if letter = '3' then 3
  else if letter = '4' then 4
  else if letter = '5' then 5
  else if letter = '6' then 6
  else if letter = '7' then 7
  else if letter = '8' then 8
  else if letter = '9' then 9
  else -1

/-- Source: `int to_accidentals(const std::string& accidentals)`: a switch over the length
of the string; `accidentals.compare(0, 2, "++") == 0` on a string of length 2 is equality
with "++". -/
def to_accidentals (E : PitchEnums) (accidentals : List Char) : Int :=
  match accidentals with
  | [] => E.k_no_accidentals
  | [c] =>
      if c = '+' then E.k_sharp
      else if c = '-' then E.k_flat
      else if c = '=' then E.k_natural
      else if c = 'x' then E.k_double_sharp
      else -1
  | [c, d] =>
      if [c, d] = ['+', '+'] then E.k_sharp_sharp
      else if [c, d] = ['-', '-'] then E.k_flat_flat
      else if [c, d] = ['=', '-'] then E.k_natural_flat
      else -1
  | _ => -1

/-- The enumerators of note types, with the values of the table in the comment of
`to_note_type` (`k_longa = 0` ... `k_256th = 10`). -/
def k_longa : Int := 0

/-- Note type `k_breve = 1`. -/
def k_breve : Int := 1

/-- Note type `k_whole = 2`. -/
def k_whole : Int := 2

/-- Note type `k_half = 3`. -/
def k_half : Int := 3

/-- Note type `k_quarter = 4`. -/
def k_quarter : Int := 4

/-- Note type `k_eighth = 5`. -/
def k_eighth : Int := 5

/-- Note type `k_16th = 6`. -/
def k_16th : Int := 6

/-- Note type `k_32th = 7`. -/
def k_32th : Int := 7

/-- Note type `k_64th = 8`. -/
def k_64th : Int := 8

/-- Note type `k_128th = 9`. -/
def k_128th : Int := 9

/-- Note type `k_256th = 10`. -/
def k_256th : Int := 10

/-- The number of values of `size_t` (a 64-bit unsigned type): arithmetic on `size_t` is
modulo this number. -/
def SIZE_T_RANGE : Nat := 2 ^ 64

/-- The decrement `i--` of a `size_t`, which wraps from 0 to the largest value. -/
def size_t_dec (i : Nat) : Nat := (i + SIZE_T_RANGE - 1) % SIZE_T_RANGE

/-- The increment `++i` of a `size_t`, which wraps from the largest value to 0. -/
def size_t_inc (i : Nat) : Nat := (i + 1) % SIZE_T_RANGE

/-- The three objects that the pointer arguments `step`, `octave`, `accidentals` of
`ldp_pitch_to_components` address. -/
structure PitchComponents where
  step : Int
  octave : Int
  accidentals : Int
  deriving DecidableEq, Repr

/-- Source: `bool ldp_pitch_to_components(const string& pitch, int *step, int* octave,
int* accidentals)`.  The result is `none` when the function reads `pitch[i]` with `i`
outside the string; otherwise it is the returned flag (`true` is error) with the values
of the three output objects after the call.  `size_t i = pitch.length() - 1` is computed
in `size_t`. -/
def ldp_pitch_to_components (E : PitchEnums) (pitch : List Char) (out : PitchComponents) :
    Option (Bool × PitchComponents) :=
  let i0 := size_t_dec pitch.length
  if i0 < 1 then some (true, out)
  else
    match pitch[i0]? with
    | none => none
    | some cOctave =>
      let out1 := { out with octave := to_octave cOctave }
      let i1 := size_t_dec i0
      if out1.octave = -1 then some (true, out1)
      else
        match pitch[i1]? with
        | none => none
        | some cStep =>
          let out2 := { out1 with step := to_step E cStep }
          let i2 := size_t_dec i1
          if out2.step = -1 then some (true, out2)
          else
            let i3 := size_t_inc i2
            if i3 = 0 then some (false, { out2 with accidentals := E.k_no_accidentals })
            else
              let out3 := { out2 with accidentals := to_accidentals E (pitch.take i3) }
              if out3.accidentals = -1 then some (true, out3) else some (false, out3)

/-- The accidentals that a pitch name may begin with: none, + - = x ++ -- =- . -/
def accidentalsPrefixes : List (List Char) :=
  [[], ['+'], ['-'], ['='], ['x'], ['+', '+'], ['-', '-'], ['=', '-']]

/-- The step letters a..g. -/
def stepLetters : List Char := ['a', 'b', 'c', 'd', 'e', 'f', 'g']

/-- The octave digits 0..9. -/
def octaveDigits : List Char := ['0', '1', '2', '3', '4', '5', '6', '7', '8', '9']

/-- The value of a decimal digit character. -/
def digitValue (c : Char) : Int := (c.toNat : Int) - 48

/-- The output objects before a call, holding an arbitrary value. -/
def somePitchComponents : PitchComponents := { step := 77, octave := 77, accidentals := 77 }

/-- Source: `float to_duration(int nNoteType, int nDots)`.  A `float` is the number it
denotes, in a field `Flt` of characteristic zero; every constant of the function is a
binary fraction. -/
def to_duration {Flt : Type} [Field Flt] (nNoteType nDots : Int) : Flt :=
  let rDuration : Flt :=
    if nNoteType = k_longa then 1024
    else if nNoteType = k_breve then 512
    else if nNoteType = k_whole then 256
    else if nNoteType = k_half then 128
    else if nNoteType = k_quarter then 64
    else if nNoteType = k_eighth then 32
    else if nNoteType = k_16th then 16
    else if nNoteType = k_32th then 8
    else if nNoteType = k_64th then 4
    else if nNoteType = k_128th then 2
    else if nNoteType = k_256th then 1
    else 64
  if nDots = 0 then rDuration
  else if nDots = 1 then rDuration * 1.5
  else if nDots = 2 then rDuration * 1.75
  else if nDots = 3 then rDuration * 1.875
  else if nDots = 4 then rDuration * 1.9375
  else if nDots = 5 then rDuration * 1.96875
  else if nDots = 6 then rDuration * 1.984375
  else if nDots = 7 then rDuration * 1.9921875
  else if nDots = 8 then rDuration * 1.99609375
  else if nDots = 9 then rDuration * 1.998046875
  else rDuration

/-- The members of class `ImoTimeSignature` that the duration methods read. -/
structure ImoTimeSignature where
  m_beats : Int
  m_beatType : Int
  deriving DecidableEq, Repr

namespace ImoTimeSignature

/-- Source: `float ImoTimeSignature::get_beat_duration()`: a switch over `m_beatType`;
`pow(2.0f, n)` is the power of two with integer exponent `n`. -/
def get_beat_duration {Flt : Type} [Field Flt] (ts : ImoTimeSignature) : Flt :=
  if ts.m_beatType = 1 then (2 : Flt) ^ (10 - k_whole)
  else if ts.m_beatType = 2 then (2 : Flt) ^ (10 - k_half)
  else if ts.m_beatType = 4 then (2 : Flt) ^ (10 - k_quarter)
  else if ts.m_beatType = 8 then (2 : Flt) ^ (10 - k_eighth)
  else if ts.m_beatType = 16 then (2 : Flt) ^ (10 - k_16th)
  else 64

/-- The number of low-order bits of the natural number `a` that do not fit the 24-bit
significand of a `float`: the least e with a / 2^e < 2^24, found in at most `fuel`
halvings. -/
def float_shift : Nat → Nat → Nat
  | 0, _ => 0
  | fuel + 1, a => if a < 2 ^ 24 then 0 else float_shift fuel (a / 2) + 1

/-- The multiple of 2^e nearest to the natural number `a`; of two nearest multiples, the
one with an even factor (round to nearest, ties to even). -/
def round_to_multiple (a e : Nat) : Nat :=
  if 2 * (a % 2 ^ e) < 2 ^ e then a / 2 ^ e * 2 ^ e
  else if 2 ^ e < 2 * (a % 2 ^ e) then (a / 2 ^ e + 1) * 2 ^ e
  else if a / 2 ^ e % 2 = 0 then a / 2 ^ e * 2 ^ e
  else (a / 2 ^ e + 1) * 2 ^ e

/-- The conversion of an `int` to `float` (binary32, 24-bit significand, round to nearest,
ties to even) that `m_beats * get_beat_duration()` applies to `m_beats`: the value of the
resulting float, which is an integer. -/
def int_to_float (m : Int) : Int :=
  if m < 0 then -((round_to_multiple m.natAbs (float_shift m.natAbs m.natAbs) : Nat) : Int)
  else ((round_to_multiple m.natAbs (float_shift m.natAbs m.natAbs) : Nat) : Int)

/-- Source: `float ImoTimeSignature::get_measure_duration()`:
`return m_beats * get_beat_duration();`.  The `int` is converted to `float`; the product
of a float of integer value below 2^32 and a power of two from 16 to 256 is a float, so
the multiplication does not round. -/
def get_measure_duration {Flt : Type} [Field Flt] (ts : ImoTimeSignature) : Flt :=
  ((int_to_float ts.m_beats : Int) : Flt) * ts.get_beat_duration

/-- The time signature 6/8. -/
def sixEight : ImoTimeSignature := { m_beats := 6, m_beatType := 8 }

/-- A time signature with 2^24 + 1 beats of a quarter note. -/
def manyBeats : ImoTimeSignature := { m_beats := 16777217, m_beatType := 4 }

end ImoTimeSignature

/-! ## The type-to-name table of ImoObj (lomse_internal_model.cpp, lines 46-50, 160-284) -/

/-- The enumerators `k_imo_...` of object types that lomse_internal_model.cpp names.  They
are declared in a header that is not among the sources; their integer values are given by
a parameter `code : ImoTypeName → Int` of the functions below. -/
inductive ImoTypeName where
  | k_imo_barline
  | k_imo_clef
  | k_imo_key_signature
  | k_imo_time_signature
  | k_imo_note
  | k_imo_rest
  | k_imo_go_back_fwd
  | k_imo_metronome_mark
  | k_imo_control
  | k_imo_spacer
  | k_imo_figured_bass
  | k_imo_content
  | k_imo_document
  | k_imo_score
  | k_imo_dynamic
  | k_imo_heading
  | k_imo_para
  | k_imo_button
  | k_imo_text_item
  | k_imo_inline_wrapper
  | k_imo_link
  | k_imo_beam_dto
  | k_imo_bezier_info
  | k_imo_border_dto
  | k_imo_textblock_info
  | k_imo_color_dto
  | k_imo_cursor_info
  | k_imo_figured_bass_info
  | k_imo_font_style_dto
  | k_imo_instr_group
  | k_imo_line_style
  | k_imo_midi_info
  | k_imo_option
  | k_imo_page_info
  | k_imo_param_info
  | k_imo_point_dto
  | k_imo_size_dto
  | k_imo_slur_dto
  | k_imo_staff_info
  | k_imo_system_info
  | k_imo_text_info
  | k_imo_text_style
  | k_imo_style
  | k_imo_tie_dto
  | k_imo_tuplet_dto
  | k_imo_beam_data
  | k_imo_slur_data
  | k_imo_tie_data
  | k_imo_tuplet_data
  | k_imo_instruments
  | k_imo_music_data
  | k_imo_options
  | k_imo_reldataobjs
  | k_imo_styles
  | k_imo_attachments
  | k_imo_instrument
  | k_imo_fermata
  | k_imo_line
  | k_imo_score_text
  | k_imo_score_title
  | k_imo_text_box
  | k_imo_beam
  | k_imo_chord
  | k_imo_slur
  | k_imo_tie
  | k_imo_tuplet
  | k_imo_instrument_groups
  deriving DecidableEq, Repr

/-- A `std::map` with `int` keys: the value stored for each key, `none` where the map has
no element. -/
abbrev IntMap (V : Type) := Int → Option V

/-- The empty map. -/
def IntMap.empty {V : Type} : IntMap V := fun _ => none

/-- The assignment `m[key] = value`. -/
def IntMap.assign {V : Type} (m : IntMap V) (key : Int) (value : V) : IntMap V :=
  Function.update m key (some value)

/-- The lookup `m.find(key)`: `none` stands for `m.end()`. -/
def IntMap.find {V : Type} (m : IntMap V) (key : Int) : Option V := m key

/-- The static variables `m_TypeToName` and `m_fNamesRegistered`. -/
structure NamesState where
  m_TypeToName : IntMap String
  m_fNamesRegistered : Bool

/-- The static variable `m_unknown`. -/
def m_unknown : String := "unknown"

/-- The assignments `m_TypeToName[k_imo_...] = "..."` in the body of the constructor
`ImoObj::ImoObj`, in source order. -/
def registeredNames : List (ImoTypeName × String) :=
  [(ImoTypeName.k_imo_barline, "barline"), (ImoTypeName.k_imo_clef, "clef"),
    (ImoTypeName.k_imo_key_signature, "keySignature"),
    (ImoTypeName.k_imo_time_signature, "time"), (ImoTypeName.k_imo_note, "n"),
    (ImoTypeName.k_imo_rest, "r"), (ImoTypeName.k_imo_go_back_fwd, "go_back_fwd"),
    (ImoTypeName.k_imo_metronome_mark, "metronome"), (ImoTypeName.k_imo_control, "control"),
    (ImoTypeName.k_imo_spacer, "spacer"), (ImoTypeName.k_imo_figured_bass, "figuredBass"),
    (ImoTypeName.k_imo_content, "content"), (ImoTypeName.k_imo_document, "lenmusdoc"),
    (ImoTypeName.k_imo_score, "score"), (ImoTypeName.k_imo_dynamic, "dynamic"),
    (ImoTypeName.k_imo_heading, "heading"), (ImoTypeName.k_imo_para, "para"),
    (ImoTypeName.k_imo_button, "buttom"), (ImoTypeName.k_imo_text_item, "txt"),
    (ImoTypeName.k_imo_inline_wrapper, "wrapper"), (ImoTypeName.k_imo_link, "link"),
    (ImoTypeName.k_imo_beam_dto, "beam"), (ImoTypeName.k_imo_bezier_info, "bezier"),
    (ImoTypeName.k_imo_border_dto, "border"), (ImoTypeName.k_imo_textblock_info, "textblock"),
    (ImoTypeName.k_imo_color_dto, "color"), (ImoTypeName.k_imo_cursor_info, "cursor"),
    (ImoTypeName.k_imo_figured_bass_info, "figured-bass"),
    (ImoTypeName.k_imo_font_style_dto, "font-style"),
    (ImoTypeName.k_imo_instr_group, "instr-group"), (ImoTypeName.k_imo_line_style, "line-style"),
    (ImoTypeName.k_imo_midi_info, "midi-info"), (ImoTypeName.k_imo_option, "opt"),
    (ImoTypeName.k_imo_page_info, "page-info"), (ImoTypeName.k_imo_param_info, "param"),
    (ImoTypeName.k_imo_point_dto, "point"), (ImoTypeName.k_imo_size_dto, "size"),
    (ImoTypeName.k_imo_slur_dto, "slur-dto"), (ImoTypeName.k_imo_staff_info, "staff-info"),
    (ImoTypeName.k_imo_system_info, "system-info"), (ImoTypeName.k_imo_text_info, "text-info"),
    (ImoTypeName.k_imo_text_style, "text-style"), (ImoTypeName.k_imo_style, "style"),
    (ImoTypeName.k_imo_tie_dto, "tie-dto"), (ImoTypeName.k_imo_tuplet_dto, "tuplet-dto"),
    (ImoTypeName.k_imo_beam_data, "beam-data"), (ImoTypeName.k_imo_slur_data, "slur-data"),
    (ImoTypeName.k_imo_tie_data, "tie-data"), (ImoTypeName.k_imo_tuplet_data, "tuplet-data"),
    (ImoTypeName.k_imo_instruments, "instruments"), (ImoTypeName.k_imo_music_data, "musicData"),
    (ImoTypeName.k_imo_options, "options"), (ImoTypeName.k_imo_reldataobjs, "reldataobjs"),
    (ImoTypeName.k_imo_styles, "styles"), (ImoTypeName.k_imo_attachments, "attachments"),
    (ImoTypeName.k_imo_instrument, "instrument"), (ImoTypeName.k_imo_fermata, "fermata"),
    (ImoTypeName.k_imo_line, "line"), (ImoTypeName.k_imo_score_text, "score-text"),
    (ImoTypeName.k_imo_score_title, "title"), (ImoTypeName.k_imo_text_box, "text-box"),
    (ImoTypeName.k_imo_beam, "beam"), (ImoTypeName.k_imo_chord, "chord"),
    (ImoTypeName.k_imo_slur, "slur"), (ImoTypeName.k_imo_tie, "tie"),
    (ImoTypeName.k_imo_tuplet, "tuplet") ]

/-- The member variables of `ImoObj` that its constructor initialises. -/
structure ImoObj where
  m_id : Int
  m_objtype : Int
  deriving DecidableEq, Repr

namespace ImoObj

/-- The statics before any object is constructed: an empty map and `false` (static
storage is zero-initialised). -/
def initialNames : NamesState := { m_TypeToName := IntMap.empty, m_fNamesRegistered := false }

/-- The block `if (!m_fNamesRegistered) { ... m_fNamesRegistered = true; }` of the
constructor. -/
def register_names (code : ImoTypeName → Int) (s : NamesState) : NamesState :=
  if !s.m_fNamesRegistered then
    { m_TypeToName :=
        registeredNames.foldl (fun m row => m.assign (code row.1) row.2) s.m_TypeToName,
      m_fNamesRegistered := true }
  else s

/-- Source: `ImoObj::ImoObj(int objtype, long id)`: the new object and the statics after
the call. -/
def construct (code : ImoTypeName → Int) (s : NamesState) (objtype id : Int) :
    ImoObj × NamesState :=
  ({ m_id := id, m_objtype := objtype }, register_names code s)

/-- The statics after constructing one object for each (objtype, id) of a list. -/
def construct_all (code : ImoTypeName → Int) (s : NamesState) (args : List (Int × Int)) :
    NamesState :=
  args.foldl (fun st a => (construct code st a.1 a.2).2) s

/-- Source: `const string& ImoObj::get_name(int type)`. -/
def get_name (s : NamesState) (type : Int) : String :=
  match s.m_TypeToName.find type with
  | some name => name
  | none => m_unknown

/-- Sample values for the enumerators: each is numbered by its position in the list of
`ImoTypeName`. -/
def sampleCode : ImoTypeName → Int := fun k => (k.toCtorIdx : Int)

end ImoObj

/-! ## ImoAttachments (lomse_internal_model.cpp, lines 889-936) -/

/-- An auxiliary object in the list of attachments: the address of the object and what
`get_obj_type()` returns for it. -/
structure ImoAuxObj where
  address : Nat
  m_objtype : Int
  deriving DecidableEq, Repr

/-- The getter `get_obj_type()` of an attached object. -/
def ImoAuxObj.get_obj_type (pAO : ImoAuxObj) : Int := pAO.m_objtype

namespace ImoAttachments

/-- The static map `priority` of `ImoAttachments::get_priority` after its initialisation
(done once, under the guard `fMapInitialized`): the six assignments in source order. -/
def priorityTable (code : ImoTypeName → Int) : IntMap Int :=
  (((((IntMap.empty.assign (code ImoTypeName.k_imo_tie) 0).assign
    (code ImoTypeName.k_imo_beam) 1).assign
    (code ImoTypeName.k_imo_chord) 2).assign
    (code ImoTypeName.k_imo_tuplet) 3).assign
    (code ImoTypeName.k_imo_slur) 4).assign
    (code ImoTypeName.k_imo_fermata) 5

/-- Source: `int ImoAttachments::get_priority(int type)`: the priority found in the map,
5000 for a type that is not listed. -/
def get_priority (code : ImoTypeName → Int) (type : Int) : Int :=
  match (priorityTable code).find type with
  | some value => value
  | none => 5000

/-- The `for` loop of `ImoAttachments::add` with what follows it: the list is walked from
`begin()` up to the first item whose priority is greater than `priority`; `pAO` is
inserted before that item, or pushed at the back when the loop reaches `end()`. -/
def insert_by_priority (code : ImoTypeName → Int) (priority : Int) (pAO : ImoAuxObj) :
    List ImoAuxObj → List ImoAuxObj
  | [] => [pAO]
  | item :: rest =>
      if get_priority code item.get_obj_type > priority then pAO :: item :: rest
      else item :: insert_by_priority code priority pAO rest

/-- Source: `void ImoAttachments::add(ImoAuxObj* pAO)`, on the list `m_attachments`. -/
def add (code : ImoTypeName → Int) (m_attachments : List ImoAuxObj) (pAO : ImoAuxObj) :
    List ImoAuxObj :=
  let priority := get_priority code pAO.get_obj_type
  if priority > 1000 then m_attachments ++ [pAO]
  else insert_by_priority code priority pAO m_attachments

/-- The list is ordered by non-decreasing priority of the types of its items. -/
def SortedByPriority (code : ImoTypeName → Int) (l : List ImoAuxObj) : Prop :=
  l.Pairwise (fun a b => get_priority code a.get_obj_type ≤ get_priority code b.get_obj_type)

instance (code : ImoTypeName → Int) (l : List ImoAuxObj) :
    Decidable (SortedByPriority code l) := by
  unfold SortedByPriority
  infer_instance

/-- A tie, a tuplet, a fermata and an object of an unlisted type, under the sample values
of the enumerators. -/
def sampleAttachments : List ImoAuxObj :=
  [ { address := 1, m_objtype := ImoObj.sampleCode ImoTypeName.k_imo_tie },
    { address := 2, m_objtype := ImoObj.sampleCode ImoTypeName.k_imo_tuplet },
    { address := 3, m_objtype := ImoObj.sampleCode ImoTypeName.k_imo_fermata },
    { address := 4, m_objtype := ImoObj.sampleCode ImoTypeName.k_imo_score_text } ]

/-- A chord under the sample values of the enumerators. -/
def sampleChord : ImoAuxObj :=
  { address := 5, m_objtype := ImoObj.sampleCode ImoTypeName.k_imo_chord }

end ImoAttachments

/-! ## ImoBeamDto (lomse_internal_model.cpp, lines 568-682) -/

/-- The beam types `ImoBeam::k_none`, `k_begin`, `k_continue`, `k_end`, `k_forward`,
`k_backward`: the enumerators of one enumeration, declared in a header that is not among
the sources. -/
inductive BeamType where
  | k_none
  | k_begin
  | k_continue
  | k_end
  | k_forward
  | k_backward
  deriving DecidableEq, Repr

/-- The arrays `m_beamType[6]` and `m_repeat[6]` and the beam number of class
`ImoBeamDto`. -/
structure ImoBeamDto where
  m_beamNum : Int
  m_beamType : Fin 6 → BeamType
  m_repeat : Fin 6 → Bool

namespace ImoBeamDto

/-- The levels 0..5 in the order in which `for (int level=0; level < 6; level++)` visits
them. -/
def levels : List (Fin 6) := [0, 1, 2, 3, 4, 5]

/-- Source: `ImoBeamDto::ImoBeamDto()`: every level is `k_none`, not repeated. -/
def default_dto : ImoBeamDto :=
  { m_beamNum := 0, m_beamType := fun _ => BeamType.k_none, m_repeat := fun _ => false }

/-- Source: `void ImoBeamDto::set_beam_type(int level, int type)` for a level in 0..5. -/
def set_beam_type (dto : ImoBeamDto) (level : Fin 6) (type : BeamType) : ImoBeamDto :=
  { dto with m_beamType := Function.update dto.m_beamType level type }

/-- Source: `int ImoBeamDto::get_beam_type(int level)` for a level in 0..5. -/
def get_beam_type (dto : ImoBeamDto) (level : Fin 6) : BeamType := dto.m_beamType level

/-- The loop of `is_start_of_beam` over the levels still to visit, with the current value
of `fStart`. -/
def is_start_of_beam_loop (dto : ImoBeamDto) : List (Fin 6) → Bool → Bool
  | [], fStart => fStart
  | level :: rest, fStart =>
      if dto.m_beamType level = BeamType.k_end ∨ dto.m_beamType level = BeamType.k_continue
      then false
      else is_start_of_beam_loop dto rest
        (if dto.m_beamType level ≠ BeamType.k_none then true else fStart)

/-- Source: `bool ImoBeamDto::is_start_of_beam()`. -/
def is_start_of_beam (dto : ImoBeamDto) : Bool := is_start_of_beam_loop dto levels false

/-- The loop of `is_end_of_beam` over the levels still to visit. -/
def is_end_of_beam_loop (dto : ImoBeamDto) : List (Fin 6) → Bool
  | [] => true
  | level :: rest =>
      if dto.m_beamType level = BeamType.k_begin ∨ dto.m_beamType level = BeamType.k_forward
          ∨ dto.m_beamType level = BeamType.k_continue
      then false
      else is_end_of_beam_loop dto rest

/-- Source: `bool ImoBeamDto::is_end_of_beam()`. -/
def is_end_of_beam (dto : ImoBeamDto) : Bool := is_end_of_beam_loop dto levels

/-- A beam information with level 0 `k_begin`, level 1 `k_forward` and the other levels
`k_none`. -/
def sampleStart : ImoBeamDto :=
  (default_dto.set_beam_type 0 BeamType.k_begin).set_beam_type 1 BeamType.k_forward

end ImoBeamDto

/-! ## Timed and non-timed entries (lomse_system_layouter.h, lines 538-602 and 691-720) -/

/-- Source: `begin()` of the vector of a line table: an iterator is the position it points
to, from 0 to `size()`. -/
def LineTable.it_begin {LUnits : Type} (_t : LineTable LUnits) : Nat := 0

/-- Source: `end()` of the vector of a line table: the position after the last entry. -/
def LineTable.it_end {LUnits : Type} (t : LineTable LUnits) : Nat := t.m_LineEntries.length

/-- The member variables of class `LineSpacer`; `m_pTable` is the table the pointer
addresses and `m_pColLyt` the address of the column layouter. -/
structure LineSpacer (Flt LUnits : Type) where
  m_pTable : LineTable LUnits
  m_rFactor : Flt
  m_pColLyt : Nat
  m_itCur : Nat
  m_rCurTime : Flt
  m_uxCurPos : LUnits
  m_uxRemovable : LUnits
  m_itNonTimedAtCurPos : Nat
  m_uxNotTimedFinalPos : LUnits
  m_uxMaxOcuppiedSpace : LUnits
  m_uxMinOcuppiedSpace : LUnits

/-- The member variables of class `TimeGridLineExplorer`. -/
structure TimeGridLineExplorer (Flt LUnits : Type) where
  m_pTable : LineTable LUnits
  m_itCur : Nat
  m_rCurTime : Flt
  m_uCurPos : LUnits
  m_uShiftToNoteRestCenter : LUnits
  m_rMinDuration : Flt

/-- The timepos `(*it)->get_timepos()` of the entry at position `it` of a table, `none`
when `it` is not the position of an entry. -/
def timepos_at {Flt LUnits : Type} (store : EntryStore Flt LUnits) (t : LineTable LUnits)
    (it : Nat) : Option Flt :=
  (t.m_LineEntries[it]?).map (fun p => (store p).get_timepos)

namespace LineSpacer

variable {Flt LUnits : Type}

/-- Source: `inline bool is_non_timed_object(LineEntryIterator it) { return (it !=
m_pTable->end() && (*it)->get_timepos() < 0.0f); }` -/
def is_non_timed_object [LinearOrder Flt] [Zero Flt] (store : EntryStore Flt LUnits)
    (sp : LineSpacer Flt LUnits) (it : Nat) : Bool :=
  it != sp.m_pTable.it_end &&
    (match timepos_at store sp.m_pTable it with
     | some rTime => decide (rTime < 0)
     | none => false)

/-- Source: `inline bool is_timed_object(LineEntryIterator it) { return (it !=
m_pTable->end() && (*it)->get_timepos() >= 0.0f); }` -/
def is_timed_object [LinearOrder Flt] [Zero Flt] (store : EntryStore Flt LUnits)
    (sp : LineSpacer Flt LUnits) (it : Nat) : Bool :=
  it != sp.m_pTable.it_end &&
    (match timepos_at store sp.m_pTable it with
     | some rTime => decide (rTime ≥ 0)
     | none => false)

/-- Source: `inline bool is_current_object_non_timed() { return
is_non_timed_object(m_itCur); }` -/
def is_current_object_non_timed [LinearOrder Flt] [Zero Flt] (store : EntryStore Flt LUnits)
    (sp : LineSpacer Flt LUnits) : Bool :=
  sp.is_non_timed_object store sp.m_itCur

/-- Source: `inline bool are_there_more_objects() { return (m_itCur != m_pTable->end()); }` -/
def are_there_more_objects (sp : LineSpacer Flt LUnits) : Bool :=
  sp.m_itCur != sp.m_pTable.it_end

end LineSpacer

namespace TimeGridLineExplorer

variable {Flt LUnits : Type}

/-- Source: `inline bool there_are_objects() { return (m_itCur != m_pTable->end()); }` -/
def there_are_objects (ex : TimeGridLineExplorer Flt LUnits) : Bool :=
  ex.m_itCur != ex.m_pTable.it_end

/-- Source: `inline bool is_current_object_non_timed() { return (m_itCur != m_pTable->end()
&& (*m_itCur)->get_timepos() < 0.0f); }` -/
def is_current_object_non_timed [LinearOrder Flt] [Zero Flt] (store : EntryStore Flt LUnits)
    (ex : TimeGridLineExplorer Flt LUnits) : Bool :=
  ex.m_itCur != ex.m_pTable.it_end &&
    (match timepos_at store ex.m_pTable ex.m_itCur with
     | some rTime => decide (rTime < 0)
     | none => false)

/-- Source: `inline bool current_object_is_timed() { return (m_itCur != m_pTable->end()
&& (*m_itCur)->get_timepos() >= 0.0f); }` -/
def current_object_is_timed [LinearOrder Flt] [Zero Flt] (store : EntryStore Flt LUnits)
    (ex : TimeGridLineExplorer Flt LUnits) : Bool :=
  ex.m_itCur != ex.m_pTable.it_end &&
    (match timepos_at store ex.m_pTable ex.m_itCur with
     | some rTime => decide (rTime ≥ 0)
     | none => false)

end TimeGridLineExplorer

/-- A memory in which the entry at address 10 is non-timed (timepos -1), the entry at
address 11 has timepos 0 and every other entry has timepos 64. -/
def sampleStore : EntryStore Int Int := fun p =>
  { LineEntry.zeroEntry with m_rTimePos := if p = 10 then -1 else if p = 11 then 0 else 64 }

/-- A spacer over the sample table [10, 11, 12]. -/
def sampleSpacer : LineSpacer Int Int :=
  { m_pTable := LineTable.sampleTable, m_rFactor := 0, m_pColLyt := 0, m_itCur := 0,
    m_rCurTime := 0, m_uxCurPos := 0, m_uxRemovable := 0, m_itNonTimedAtCurPos := 0,
    m_uxNotTimedFinalPos := 0, m_uxMaxOcuppiedSpace := 0, m_uxMinOcuppiedSpace := 0 }

/-- An explorer over the sample table [10, 11, 12] whose current entry is at position
`it`. -/
def sampleExplorer (it : Nat) : TimeGridLineExplorer Int Int :=
  { m_pTable := LineTable.sampleTable, m_itCur := it, m_rCurTime := 0, m_uCurPos := 0,
    m_uShiftToNoteRestCenter := 0, m_rMinDuration := 0 }

/-! ## ImoInstrGroup (lomse_internal_model.cpp, lines 1545-1594) -/

/-- The list `std::list<ImoInstrument*> m_instruments` of class `ImoInstrGroup`, as the
addresses of the instruments in the order of the list. -/
structure ImoInstrGroup where
  m_instruments : List Nat
  deriving DecidableEq, Repr

namespace ImoInstrGroup

/-- Source: `void ImoInstrGroup::add_instrument(ImoInstrument* pInstr)`:
`m_instruments.push_back(pInstr)`; the call `pInstr->set_in_group(this)` changes the
instrument, not the group. -/
def add_instrument (g : ImoInstrGroup) (pInstr : Nat) : ImoInstrGroup :=
  { g with m_instruments := g.m_instruments ++ [pInstr] }

/-- Source: `int ImoInstrGroup::get_num_instruments()`. -/
def get_num_instruments (g : ImoInstrGroup) : Int := (g.m_instruments.length : Int)

/-- The loop `for (it = m_instruments.begin(); it != m_instruments.end() && i < iInstr;
++it, ++i);` of `get_instrument`: an iterator is the part of the list from its position
on (the empty list is `end()`); the result is the iterator and `i` when the loop stops. -/
def get_instrument_loop (iInstr : Int) : List Nat → Int → List Nat × Int
  | [], i => ([], i)
  | pInstr :: rest, i =>
      if i < iInstr then get_instrument_loop iInstr rest (i + 1) else (pInstr :: rest, i)

/-- Source: `ImoInstrument* ImoInstrGroup::get_instrument(int iInstr)`.  The result is
`none` when the function evaluates `*it` with `it == m_instruments.end()`, a read past the
end of the list; otherwise it is the pointer returned, `some none` for `NULL`. -/
def get_instrument (g : ImoInstrGroup) (iInstr : Int) : Option (Option Nat) :=
  match get_instrument_loop iInstr g.m_instruments 0 with
  | (it, i) =>
      if i = iInstr then
        match it with
        | [] => none
        | pInstr :: _ => some (some pInstr)
      else some none

/-- The group to which the instruments at addresses 20, 21, 22 were added in this order. -/
def sampleGroup : ImoInstrGroup :=
  (({ m_instruments := [] } : ImoInstrGroup).add_instrument 20 |>.add_instrument 21).add_instrument 22

end ImoInstrGroup

namespace ImoAttachments

/-- The loop `for(it = m_attachments.begin(); it != m_attachments.end() && iItem > 0;
++it, --iItem);` of `get_item`: the iterator (the part of the list from its position on)
when the loop stops. -/
def get_item_loop : List ImoAuxObj → Int → List ImoAuxObj
  | [], _ => []
  | item :: rest, iItem => if iItem > 0 then get_item_loop rest (iItem - 1) else item :: rest

/-- Source: `ImoAuxObj* ImoAttachments::get_item(int iItem)`: `if (it !=
m_attachments.end()) return *it; else return NULL;`, with `none` for `NULL`. -/
def get_item (m_attachments : List ImoAuxObj) (iItem : Int) : Option ImoAuxObj :=
  match get_item_loop m_attachments iItem with
  | [] => none
  | item :: _ => some item

/-- Source: `void ImoAttachments::remove(ImoAuxObj* pAO)`: `m_attachments.remove(pAO)`,
which erases every element equal to `pAO`. -/
def remove (m_attachments : List ImoAuxObj) (pAO : ImoAuxObj) : List ImoAuxObj :=
  m_attachments.filter (fun item => decide (item ≠ pAO))

end ImoAttachments

/-! ## Relations between staff objects (lomse_internal_model.cpp, lines 331-510) -/

/-- The children of an `ImoStaffObj` that the relation methods use: the list of its
`ImoAttachments` child and the children of its `ImoReldataobjs` child; `none` when
`get_attachments()`, resp. `get_reldataobjs()`, is `NULL` (no such child). -/
structure ImoStaffObj where
  attachments : Option (List ImoAuxObj)
  reldataobjs : Option (List Nat)

/-- A relation object: `self` is the object as an `ImoAuxObj*` (what staff objects hold in
their attachments) and `m_relatedObjects` is `std::list< pair<ImoStaffObj*,
ImoRelDataObj*> >`, with `none` for a `NULL` data pointer. -/
structure ImoRelObj where
  self : ImoAuxObj
  m_relatedObjects : List (Nat × Option Nat)

namespace ImoRelObj

/-- Source: `void ImoRelObj::push_back(ImoStaffObj* pSO, ImoRelDataObj* pData)`. -/
def push_back (r : ImoRelObj) (pSO : Nat) (pData : Option Nat) : ImoRelObj :=
  { r with m_relatedObjects := r.m_relatedObjects ++ [(pSO, pData)] }

/-- The loop of `ImoRelObj::remove`: the first pair whose staff object is `pSO` is erased
and the function returns. -/
def remove_loop (pSO : Nat) : List (Nat × Option Nat) → List (Nat × Option Nat)
  | [] => []
  | pair :: rest => if pair.1 = pSO then rest else pair :: remove_loop pSO rest

/-- Source: `void ImoRelObj::remove(ImoStaffObj* pSO)`. -/
def remove (r : ImoRelObj) (pSO : Nat) : ImoRelObj :=
  { r with m_relatedObjects := remove_loop pSO r.m_relatedObjects }

/-- The loop of `ImoRelObj::get_data_for`: the data of the first pair whose staff object is
`pSO`, `none` for `NULL`. -/
def get_data_for_loop (pSO : Nat) : List (Nat × Option Nat) → Option Nat
  | [] => none
  | pair :: rest => if pair.1 = pSO then pair.2 else get_data_for_loop pSO rest

/-- Source: `ImoRelDataObj* ImoRelObj::get_data_for(ImoStaffObj* pSO)`. -/
def get_data_for (r : ImoRelObj) (pSO : Nat) : Option Nat :=
  get_data_for_loop pSO r.m_relatedObjects

end ImoRelObj

/-- The staff objects in memory, by address, and a relation object. -/
structure RelationState where
  staffobjs : Nat → ImoStaffObj
  relation : ImoRelObj

/-- The result of running a loop with a bound on the number of iterations: the state on
return, the state reached when the bound is used up, or a dereference of a null pointer. -/
inductive LoopResult where
  | returned (s : RelationState)
  | out_of_iterations (s : RelationState)
  | null_dereference

namespace ImoStaffObj

/-- Modelled from the spec: `TreeNode::remove_child`, declared in a header that is not
among the sources.  Spec section 9 describes the document tree as nodes with explicit
child lists; removing a child takes it out of the list of children and leaves the other
children in place. -/
def remove_child (children : List Nat) (child : Nat) : List Nat := children.erase child

/-- Source: `void ImoStaffObj::remove_reldataobj(ImoSimpleObj* pData)`: when the staff
object has an `ImoReldataobjs` child, `pData` is removed from its children, and the child
itself is removed when it has no children left. -/
def remove_reldataobj (so : ImoStaffObj) (pData : Nat) : ImoStaffObj :=
  match so.reldataobjs with
  | none => so
  | some children =>
      if (remove_child children pData).length = 0 then { so with reldataobjs := none }
      else { so with reldataobjs := some (remove_child children pData) }

/-- Source: `void ImoStaffObj::remove_but_not_delete_relation(ImoRelObj* pRelObj)` called
on the staff object at address `pThis` (the `this` of the call).  The result is `none` when `get_attachments()` is
`NULL`, in which case `pAuxObjs->remove(pRelObj)` dereferences a null pointer. -/
def remove_but_not_delete_relation (s : RelationState) (pThis : Nat) : Option RelationState :=
  let so1 :=
    match s.relation.get_data_for pThis with
    | some pData => (s.staffobjs pThis).remove_reldataobj pData
    | none => s.staffobjs pThis
  let relation1 := s.relation.remove pThis
  match so1.attachments with
  | none => none
  | some m_attachments =>
      let so2 : ImoStaffObj :=
        { so1 with attachments := some (ImoAttachments.remove m_attachments s.relation.self) }
      some { staffobjs := Function.update s.staffobjs pThis so2, relation := relation1 }

end ImoStaffObj

namespace ImoRelObj

/-- Source: `void ImoRelObj::remove_all()`: the loop `while (m_relatedObjects.size() > 0)`
run for at most `bound` iterations. -/
def remove_all (bound : Nat) (s : RelationState) : LoopResult :=
  match s.relation.m_relatedObjects with
  | [] => LoopResult.returned s
  | front :: _ =>
      match bound with
      | 0 => LoopResult.out_of_iterations s
      | bound + 1 =>
          match ImoStaffObj.remove_but_not_delete_relation s front.1 with
          | none => LoopResult.null_dereference
          | some s1 => remove_all bound s1

/-- The list of the relation in the result of a run, when there is one. -/
def related_objects_of : LoopResult → Option (List (Nat × Option Nat))
  | LoopResult.returned s => some s.relation.m_relatedObjects
  | LoopResult.out_of_iterations s => some s.relation.m_relatedObjects
  | LoopResult.null_dereference => none

/-- The staff object has an attachments child whose list holds `pAO`. -/
def has_attached (so : ImoStaffObj) (pAO : ImoAuxObj) : Bool :=
  match so.attachments with
  | some m_attachments => decide (pAO ∈ m_attachments)
  | none => false

/-- Every staff object of the relation has the relation among its attachments. -/
def AllAttached (s : RelationState) : Prop :=
  ∀ pair ∈ s.relation.m_relatedObjects,
    has_attached (s.staffobjs pair.1) s.relation.self = true

instance (s : RelationState) : Decidable (AllAttached s) := by
  unfold AllAttached
  infer_instance

/-- A beam (address 50) relating the staff objects at addresses 1 and 2, with data at
addresses 7 and 8; both staff objects have the beam among their attachments. -/
def sampleRelation : RelationState :=
  { staffobjs := fun pSO =>
      if pSO = 1 then
        { attachments := some [{ address := 50, m_objtype := 1 }], reldataobjs := some [7] }
      else if pSO = 2 then
        { attachments := some [{ address := 60, m_objtype := 5 },
                               { address := 50, m_objtype := 1 }],
          reldataobjs := some [8, 9] }
      else { attachments := none, reldataobjs := none },
    relation :=
      { self := { address := 50, m_objtype := 1 },
        m_relatedObjects := [(1, some 7), (2, some 8)] } }

end ImoRelObj

/-! ## Proportional spacing (lomse_system_layouter.h, lines 538-587) -/

namespace LineEntry

variable {Flt LUnits : Type}

/-- C1 (as stated, refuted): the entry with all numbers zero satisfies
`get_x_final() = get_position() + get_total_size()`, and after the single call
`set_position(1)` it does not: `set_position` stores the new left position and leaves
`m_xFinal` alone. -/
theorem C1_counterexample :
    XFinalInvariant zeroEntry ∧
      ¬ XFinalInvariant (applyMutators zeroEntry [Mutator.set_position 1]) := by
  constructor
  · decide
  · decide

/-- C1 (amended): from any entry, after any sequence of calls of set_position, set_size,
set_fixed_space, set_variable_space and update_x_final that ends with a call of
update_x_final, `get_x_final() = get_position() + get_total_size()`; and each of the four
setters stores its argument in its own member and leaves x_final, and the position, size,
fixed space and variable space it does not set, as they were. -/
theorem C1_x_final_after_update [Add LUnits] (e : LineEntry Flt LUnits)
    (calls : List (Mutator LUnits)) (v : LUnits) :
    XFinalInvariant (applyMutators e (calls ++ [Mutator.update_x_final])) ∧
    ((e.set_position v).get_position = v ∧
      (e.set_position v).get_x_final = e.get_x_final ∧
      (e.set_position v).get_shape_size = e.get_shape_size ∧
      (e.set_position v).get_fixed_space = e.get_fixed_space ∧
      (e.set_position v).get_variable_space = e.get_variable_space) ∧
    ((e.set_size v).get_shape_size = v ∧
      (e.set_size v).get_x_final = e.get_x_final ∧
      (e.set_size v).get_position = e.get_position ∧
      (e.set_size v).get_fixed_space = e.get_fixed_space ∧
      (e.set_size v).get_variable_space = e.get_variable_space) ∧
    ((e.set_fixed_space v).get_fixed_space = v ∧
      (e.set_fixed_space v).get_x_final = e.get_x_final ∧
      (e.set_fixed_space v).get_position = e.get_position ∧
      (e.set_fixed_space v).get_shape_size = e.get_shape_size ∧
      (e.set_fixed_space v).get_variable_space = e.get_variable_space) ∧
    ((e.set_variable_space v).get_variable_space = v ∧
      (e.set_variable_space v).get_x_final = e.get_x_final ∧
      (e.set_variable_space v).get_position = e.get_position ∧
      (e.set_variable_space v).get_shape_size = e.get_shape_size ∧
      (e.set_variable_space v).get_fixed_space = e.get_fixed_space) ∧
    (applyMutators e [Mutator.set_position v] = e.set_position v ∧
      applyMutators e [Mutator.set_size v] = e.set_size v ∧
      applyMutators e [Mutator.set_fixed_space v] = e.set_fixed_space v ∧
      applyMutators e [Mutator.set_variable_space v] = e.set_variable_space v ∧
      applyMutators e [Mutator.update_x_final] = e.update_x_final) := by
  refine ⟨?_, ⟨rfl, rfl, rfl, rfl, rfl⟩, ⟨rfl, rfl, rfl, rfl, rfl⟩, ⟨rfl, rfl, rfl, rfl, rfl⟩,
    ⟨rfl, rfl, rfl, rfl, rfl⟩, ⟨rfl, rfl, rfl, rfl, rfl⟩⟩
  simp [applyMutators, List.foldl_append, applyMutator, XFinalInvariant, update_x_final,
    get_x_final, get_position, get_total_size]

/-- C6: `get_total_size()` is shape size + fixed space + variable space, and
`update_x_final()` sets x_final to `get_position() + get_total_size()` (of the entry
before the call, which are also those of the entry after it) and leaves position, size,
fixed space, variable space, timepos and the barline flag unchanged. -/
theorem C6_total_size_and_update_x_final [Add LUnits] (e : LineEntry Flt LUnits) :
    e.get_total_size = e.get_shape_size + e.get_fixed_space + e.get_variable_space ∧
    e.update_x_final.get_x_final = e.get_position + e.get_total_size ∧
    e.update_x_final.get_x_final =
      e.update_x_final.get_position + e.update_x_final.get_total_size ∧
    e.update_x_final.get_position = e.get_position ∧
    e.update_x_final.get_shape_size = e.get_shape_size ∧
    e.update_x_final.get_fixed_space = e.get_fixed_space ∧
    e.update_x_final.get_variable_space = e.get_variable_space ∧
    e.update_x_final.get_timepos = e.get_timepos ∧
    e.update_x_final.is_barline_entry = e.is_barline_entry :=
  ⟨rfl, rfl, rfl, rfl, rfl, rfl, rfl, rfl, rfl⟩

/-- C7 (as stated, refuted): from the entry with all numbers zero, the single call
`set_fixed_space(-1)` gives an entry whose fixed space is -1: the setters store their
argument as it is. -/
theorem C7_counterexample :
    ¬ (0 ≤ (applySpaceSetters zeroEntry [SpaceSetter.set_fixed_space (-1)]).get_fixed_space ∧
       0 ≤ (applySpaceSetters zeroEntry
              [SpaceSetter.set_fixed_space (-1)]).get_variable_space) := by
  decide

/-- C7 (amended): `set_fixed_space(s)` and `set_variable_space(s)` store s unchanged, with
no clamping, each in its own member and leaving the other space as it was; if an entry has
fixed space >= 0 and variable space >= 0 and every argument passed to the two setters is
>= 0, then after the calls `get_fixed_space() >= 0` and `get_variable_space() >= 0`. -/
theorem C7_spaces_nonneg [Zero LUnits] [LE LUnits] (e : LineEntry Flt LUnits)
    (calls : List (SpaceSetter LUnits)) (space : LUnits)
    (hfixed : 0 ≤ e.get_fixed_space) (hvariable : 0 ≤ e.get_variable_space)
    (hargs : ∀ c ∈ calls, 0 ≤ c.argument) :
    (0 ≤ (applySpaceSetters e calls).get_fixed_space ∧
      0 ≤ (applySpaceSetters e calls).get_variable_space) ∧
    ((e.set_fixed_space space).get_fixed_space = space ∧
      (e.set_fixed_space space).get_variable_space = e.get_variable_space) ∧
    ((e.set_variable_space space).get_variable_space = space ∧
      (e.set_variable_space space).get_fixed_space = e.get_fixed_space) ∧
    (applySpaceSetters e [SpaceSetter.set_fixed_space space] = e.set_fixed_space space ∧
      applySpaceSetters e [SpaceSetter.set_variable_space space] =
        e.set_variable_space space) := by
  refine ⟨?_, ⟨rfl, rfl⟩, ⟨rfl, rfl⟩, ⟨rfl, rfl⟩⟩
  clear space
  induction calls generalizing e with
  | nil => exact ⟨hfixed, hvariable⟩
  | cons c cs ih =>
    have hc : 0 ≤ c.argument := hargs c (List.mem_cons_self c cs)
    have hcs : ∀ d ∈ cs, 0 ≤ d.argument := fun d hd => hargs d (List.mem_cons_of_mem c hd)
    cases c with
    | set_fixed_space space => exact ih (e.set_fixed_space space) hc hvariable hcs
    | set_variable_space space => exact ih (e.set_variable_space space) hfixed hc hcs

/-- C7 (amended), at the zero entry with the calls `set_fixed_space(2)`,
`set_variable_space(3)`, `set_fixed_space(0)`, and the argument 5 stored by each setter. -/
theorem C7_spaces_nonneg_witness :
    (0 ≤ zeroEntry.get_fixed_space ∧ 0 ≤ zeroEntry.get_variable_space ∧
      ∀ c ∈ [SpaceSetter.set_fixed_space (2 : Int), SpaceSetter.set_variable_space 3,
              SpaceSetter.set_fixed_space 0], 0 ≤ c.argument) ∧
    (0 ≤ (applySpaceSetters zeroEntry
          [SpaceSetter.set_fixed_space 2, SpaceSetter.set_variable_space 3,
            SpaceSetter.set_fixed_space 0]).get_fixed_space ∧
      0 ≤ (applySpaceSetters zeroEntry
          [SpaceSetter.set_fixed_space 2, SpaceSetter.set_variable_space 3,
            SpaceSetter.set_fixed_space 0]).get_variable_space) ∧
    (zeroEntry.set_fixed_space 5).get_fixed_space = 5 ∧
    (zeroEntry.set_variable_space 5).get_variable_space = 5 :=
  ⟨⟨by decide, by decide, by decide⟩,
    (C7_spaces_nonneg zeroEntry
      [SpaceSetter.set_fixed_space 2, SpaceSetter.set_variable_space 3,
        SpaceSetter.set_fixed_space 0] 5
      (by decide) (by decide) (by decide)).1,
    (C7_spaces_nonneg zeroEntry [] 5 (by decide) (by decide) (by decide)).2.1.1,
    (C7_spaces_nonneg zeroEntry [] 5 (by decide) (by decide) (by decide)).2.2.1.1⟩

end LineEntry

/-! ## Theorems about LineTable -/

namespace LineTable

variable {Flt LUnits : Type}

/-- C9: after `push_back(e)` on a table with n entries the table has n+1 entries,
`back()` and `get_last_entry()` are e, `item(n)` is e, and for every 0 <= i < n `item(i)`
is an entry of the table before the call and is the same entry after it; the vector after
the call is the vector before it followed by e. -/
theorem C9_push_back (t : LineTable LUnits) (e : LineEntryPtr) :
    (t.push_back e).size = t.size + 1 ∧
    (t.push_back e).back = some e ∧
    (t.push_back e).get_last_entry = some e ∧
    (t.push_back e).item (t.size : Int) = some e ∧
    (∀ i : Int, 0 ≤ i → i < (t.size : Int) →
      ∃ p, t.item i = some p ∧ (t.push_back e).item i = some p) ∧
    (t.push_back e).m_LineEntries = t.m_LineEntries ++ [e] := by
  refine ⟨?_, ?_, ?_, ?_, ?_, rfl⟩
  · simp [push_back, size]
  · simp [push_back, back]
  · simp [push_back, get_last_entry]
  · simp [push_back, item, size]
  · intro i h0 hn
    have hlt : i.toNat < t.m_LineEntries.length := by
      have : i < (t.m_LineEntries.length : Int) := hn
      omega
    refine ⟨t.m_LineEntries.get ⟨i.toNat, hlt⟩, ?_, ?_⟩
    · simp [item, h0, List.getElem?_eq_getElem hlt]
    · simp [item, push_back, h0, List.getElem?_append_left hlt, List.getElem?_eq_getElem hlt]

/-- C9 at the table [10, 11, 12] and the entry 13. -/
theorem C9_push_back_witness :
    (sampleTable.push_back 13).size = 4 ∧
    (sampleTable.push_back 13).back = some 13 ∧
    (sampleTable.push_back 13).item 1 = some 11 ∧
    ∃ p, sampleTable.item 2 = some p ∧ (sampleTable.push_back 13).item 2 = some p :=
  ⟨(C9_push_back sampleTable 13).1, (C9_push_back sampleTable 13).2.1, by decide,
    (C9_push_back sampleTable 13).2.2.2.2.1 2 (by decide) (by decide)⟩

end LineTable

namespace LineState

variable {Flt LUnits : Type}

/-- C10 (as stated, refuted): on an empty line, `push_back(1)`, then
`mark_as_barline_entry()` on entry 1, then `push_back(2)` gives the line [1, 2] whose
first entry is a barline entry and is not the last entry: `push_back` appends to a line
that already holds its terminating entry. -/
theorem C10_counterexample :
    BarlineOnlyLast emptyLine ∧
    (emptyLine.calls [LineCall.push_back 1, LineCall.mark_as_barline_entry 1,
        LineCall.push_back 2]).line.m_LineEntries = [1, 2] ∧
    ¬ BarlineOnlyLast
        (emptyLine.calls [LineCall.push_back 1, LineCall.mark_as_barline_entry 1,
          LineCall.push_back 2]) := by
  refine ⟨by decide, by decide, by decide⟩

/-- One allowed call keeps the entries of the line pairwise different and keeps the
barline property. -/
theorem call_keeps_barline_only_last (s : LineState Flt LUnits) (c : LineCall)
    (hnodup : s.line.m_LineEntries.Nodup) (hinv : BarlineOnlyLast s) (hc : Allowed s c) :
    (s.call c).line.m_LineEntries.Nodup ∧ BarlineOnlyLast (s.call c) := by
  cases c with
  | push_back p =>
    obtain ⟨hfresh, hopen⟩ := hc
    refine ⟨?_, ?_⟩
    · show (s.line.m_LineEntries ++ [p]).Nodup
      exact List.nodup_append.mpr ⟨hnodup, List.nodup_singleton p, by simpa using hfresh⟩
    · intro i hi
      have hlen : (s.call (LineCall.push_back p)).line.m_LineEntries.length
          = s.line.m_LineEntries.length + 1 := by
        simp [call, LineTable.push_back]
      by_cases hlt : i.val < s.line.m_LineEntries.length
      · exfalso
        have hget : (s.call (LineCall.push_back p)).line.m_LineEntries.get i
            = s.line.m_LineEntries.get ⟨i.val, hlt⟩ := by
          simp [call, LineTable.push_back, List.getElem_append_left hlt]
        have hmem : s.line.m_LineEntries.get ⟨i.val, hlt⟩ ∈ s.line.m_LineEntries :=
          List.get_mem _ _ _
        have hfalse := hopen _ hmem
        rw [hget] at hi
        have hi2 : (s.store (s.line.m_LineEntries.get ⟨i.val, hlt⟩)).is_barline_entry = true := hi
        rw [hfalse] at hi2
        exact Bool.noConfusion hi2
      · have := i.isLt
        omega
  | mark_as_barline_entry p =>
    refine ⟨hnodup, ?_⟩
    change ∀ i : Fin s.line.m_LineEntries.length,
      (Function.update s.store p (s.store p).mark_as_barline_entry
        (s.line.m_LineEntries.get i)).is_barline_entry = true →
      i.val + 1 = s.line.m_LineEntries.length
    intro i hi2
    by_cases hp : s.line.m_LineEntries.get i = p
    · rcases hc with hnot | hlast
      · exact absurd (hp ▸ List.get_mem _ _ _) hnot
      · have hne : s.line.m_LineEntries ≠ [] := by
          intro h
          have hlen : s.line.m_LineEntries.length = 0 := by rw [h]; rfl
          have hlt := i.isLt
          omega
        have hlast2 : s.line.m_LineEntries.getLast hne = p := by
          have : s.line.m_LineEntries.getLast? = some p := hlast
          rw [List.getLast?_eq_getLast _ hne] at this
          exact Option.some.inj this
        have hpos : 0 < s.line.m_LineEntries.length := List.length_pos.mpr hne
        have hidx : s.line.m_LineEntries.get
            ⟨s.line.m_LineEntries.length - 1, by omega⟩ = p := by
          rw [← hlast2, List.getLast_eq_getElem]
          rfl
        have heq : i = ⟨s.line.m_LineEntries.length - 1, by omega⟩ :=
          (List.Nodup.get_inj_iff hnodup).mp (hp.trans hidx.symm)
        have : i.val = s.line.m_LineEntries.length - 1 := congrArg Fin.val heq
        show i.val + 1 = s.line.m_LineEntries.length
        omega
    · rw [Function.update_noteq hp] at hi2
      exact hinv i hi2

/-- C10 (amended): starting from an empty line, if every `push_back` adds an entry that is
not yet in the line and is made while no entry of the line is a barline entry, and every
`mark_as_barline_entry` is made on the last entry of the line (or on an entry outside the
line), then in every state reached at most one entry of the line is a barline entry and it
is the last entry. -/
theorem C10_barline_only_last (s : LineState Flt LUnits) (cs : List LineCall)
    (hempty : s.line.m_LineEntries = []) (hallowed : AllAllowed s cs) :
    BarlineOnlyLast (s.calls cs) := by
  have key : ∀ (cs : List LineCall) (s : LineState Flt LUnits),
      s.line.m_LineEntries.Nodup → BarlineOnlyLast s → AllAllowed s cs →
      BarlineOnlyLast (s.calls cs) := by
    intro cs
    induction cs with
    | nil => intro s _ hinv _; exact hinv
    | cons c cs ih =>
      intro s hnodup hinv hall
      obtain ⟨hc, hrest⟩ := hall
      obtain ⟨hnodup2, hinv2⟩ := call_keeps_barline_only_last s c hnodup hinv hc
      exact ih (s.call c) hnodup2 hinv2 hrest
  refine key cs s (by simp [hempty]) ?_ hallowed
  intro i
  have := i.isLt
  simp [hempty] at this

/-- C10 (amended) on the empty line with the calls `push_back(1)`, `push_back(2)`,
`mark_as_barline_entry()` on entry 2: exactly the last of the two entries is a barline
entry. -/
theorem C10_barline_only_last_witness :
    (emptyLine.line.m_LineEntries = [] ∧
      AllAllowed emptyLine [LineCall.push_back 1, LineCall.push_back 2,
        LineCall.mark_as_barline_entry 2]) ∧
    BarlineOnlyLast (emptyLine.calls [LineCall.push_back 1, LineCall.push_back 2,
        LineCall.mark_as_barline_entry 2]) :=
  ⟨⟨rfl, by decide⟩,
    C10_barline_only_last emptyLine
      [LineCall.push_back 1, LineCall.push_back 2, LineCall.mark_as_barline_entry 2]
      rfl (by decide)⟩

end LineState

/-! ## Theorems about BreakPoints -/

namespace BreakPoints

variable {Flt LUnits : Type}

/-- No entry is preferred to itself. -/
theorem is_preferred_irrefl [LinearOrder Flt] [LinearOrder LUnits]
    (a : BreaksTimeEntry Flt LUnits) : is_preferred a a = false := by
  simp [is_preferred]

/-- Preference is transitive. -/
theorem is_preferred_trans [LinearOrder Flt] [LinearOrder LUnits]
    (a b c : BreaksTimeEntry Flt LUnits)
    (hab : is_preferred a b = true) (hbc : is_preferred b c = true) :
    is_preferred a c = true := by
  simp only [is_preferred, Bool.or_eq_true, Bool.and_eq_true, decide_eq_true_eq] at *
  rcases hab with hab | ⟨hab, hab2⟩
  · rcases hbc with hbc | ⟨hbc, _⟩
    · exact Or.inl (lt_trans hab hbc)
    · exact Or.inl (hbc ▸ hab)
  · rcases hbc with hbc | ⟨hbc, hbc2⟩
    · exact Or.inl (hab ▸ hbc)
    · exact Or.inr ⟨hab.trans hbc, lt_trans hbc2 hab2⟩

/-- The entry kept by the pass is one of the candidates, and no candidate is preferred to
it, provided none of the candidates already seen is preferred to the starting entry. -/
theorem select_preferred_spec [LinearOrder Flt] [LinearOrder LUnits]
    (rest seen : List (BreaksTimeEntry Flt LUnits)) (best : BreaksTimeEntry Flt LUnits)
    (hbest : best ∈ seen) (hseen : ∀ f ∈ seen, is_preferred f best = false) :
    select_preferred best rest ∈ seen ++ rest ∧
      ∀ f ∈ seen ++ rest, is_preferred f (select_preferred best rest) = false := by
  induction rest generalizing seen best with
  | nil => simpa [select_preferred] using And.intro hbest hseen
  | cons c rest ih =>
    have happ : seen ++ c :: rest = (seen ++ [c]) ++ rest := by simp
    rw [happ]
    by_cases hc : is_preferred c best = true
    · simp only [select_preferred, hc, if_true]
      apply ih (seen ++ [c]) c (by simp)
      intro f hf
      rcases List.mem_append.mp hf with hf | hf
      · cases hfc : is_preferred f c with
        | false => rfl
        | true =>
          have := is_preferred_trans f c best hfc hc
          rw [hseen f hf] at this
          exact Bool.noConfusion this
      · have : f = c := by simpa using hf
        rw [this]
        exact is_preferred_irrefl c
    · have hc2 : is_preferred c best = false := by simpa using hc
      simp only [select_preferred, hc2, Bool.false_eq_true, if_false]
      apply ih (seen ++ [c]) best (List.mem_append.mpr (Or.inl hbest))
      intro f hf
      rcases List.mem_append.mp hf with hf | hf
      · exact hseen f hf
      · have : f = c := by simpa using hf
        rw [this]
        exact hc2

/-- C3: `find_optimum_break_point_for_space(available)` reports failure exactly when no
entry of the breaks table has uxEnd <= available; otherwise it selects an entry of the
table that has uxEnd <= available, whose priority value is lowest among the entries that
fit, and whose uxEnd is latest among the fitting entries of that priority value. -/
theorem C3_find_optimum_break_point [LinearOrder Flt] [LinearOrder LUnits]
    (bp : BreakPoints Flt LUnits) (uAvailable : LUnits) :
    ((bp.find_optimum_break_point_for_space uAvailable).1 = false ↔
      ∀ e ∈ bp.m_pPossibleBreaks.m_BreaksTable, ¬ e.uxEnd ≤ uAvailable) ∧
    ((bp.find_optimum_break_point_for_space uAvailable).1 = true →
      ∃ e, (bp.find_optimum_break_point_for_space uAvailable).2.m_pOptimumEntry = some e ∧
        e ∈ bp.m_pPossibleBreaks.m_BreaksTable ∧
        e.uxEnd ≤ uAvailable ∧
        (∀ f ∈ bp.m_pPossibleBreaks.m_BreaksTable, f.uxEnd ≤ uAvailable →
          e.rPriority ≤ f.rPriority) ∧
        (∀ f ∈ bp.m_pPossibleBreaks.m_BreaksTable, f.uxEnd ≤ uAvailable →
          f.rPriority = e.rPriority → f.uxEnd ≤ e.uxEnd)) := by
  have hfilter : ∀ f, f ∈ bp.m_pPossibleBreaks.m_BreaksTable.filter
        (fun e => decide (e.uxEnd ≤ uAvailable)) ↔
      f ∈ bp.m_pPossibleBreaks.m_BreaksTable ∧ f.uxEnd ≤ uAvailable := by
    intro f
    simp [List.mem_filter]
  unfold find_optimum_break_point_for_space
  cases hfit : bp.m_pPossibleBreaks.m_BreaksTable.filter
      (fun e => decide (e.uxEnd ≤ uAvailable)) with
  | nil =>
    rw [hfit] at hfilter
    refine ⟨⟨fun _ e he hle => ?_, fun _ => rfl⟩, fun h => Bool.noConfusion h⟩
    exact List.not_mem_nil e ((hfilter e).mpr ⟨he, hle⟩)
  | cons c rest =>
    rw [hfit] at hfilter
    obtain ⟨hmem, hbest⟩ := select_preferred_spec rest [c] c (List.mem_singleton_self c)
      (fun f hf => by rw [List.mem_singleton.mp hf]; exact is_preferred_irrefl c)
    have hsel := (hfilter _).mp hmem
    refine ⟨⟨fun h => Bool.noConfusion h, fun h => ?_⟩, fun _ => ?_⟩
    · exact absurd ((hfilter c).mp (List.mem_cons_self c rest)).2
        (h c ((hfilter c).mp (List.mem_cons_self c rest)).1)
    · refine ⟨select_preferred c rest, rfl, hsel.1, hsel.2, ?_, ?_⟩
      · intro f hf hle
        have hnot := hbest f ((hfilter f).mpr ⟨hf, hle⟩)
        simp only [is_preferred, Bool.or_eq_false_iff, decide_eq_false_iff_not, not_lt] at hnot
        exact hnot.1
      · intro f hf hle hprio
        have hnot := hbest f ((hfilter f).mpr ⟨hf, hle⟩)
        simp only [is_preferred, Bool.or_eq_false_iff, decide_eq_false_iff_not, not_lt,
          Bool.and_eq_false_iff, decide_eq_false_iff_not] at hnot
        rcases hnot.2 with h | h
        · exact absurd hprio h
        · exact h

/-- C3 on the sample table with 100 units available: the search succeeds, and it selects
the entry ending at 40 with the lowest of the fitting priority values, not the later entry
ending at 80 inside the beam; with 30 units available it reports failure. -/
theorem C3_find_optimum_break_point_witness :
    (sampleBreaks.find_optimum_break_point_for_space 100).1 = true ∧
    ((sampleBreaks.find_optimum_break_point_for_space 100).2.m_pOptimumEntry.map
      (fun e => (e.rTimepos, e.uxEnd))) = some (1, 40) ∧
    (∃ e, (sampleBreaks.find_optimum_break_point_for_space 100).2.m_pOptimumEntry = some e ∧
        e ∈ sampleBreaks.m_pPossibleBreaks.m_BreaksTable ∧
        e.uxEnd ≤ 100 ∧
        (∀ f ∈ sampleBreaks.m_pPossibleBreaks.m_BreaksTable, f.uxEnd ≤ 100 →
          e.rPriority ≤ f.rPriority) ∧
        (∀ f ∈ sampleBreaks.m_pPossibleBreaks.m_BreaksTable, f.uxEnd ≤ 100 →
          f.rPriority = e.rPriority → f.uxEnd ≤ e.uxEnd)) ∧
    (sampleBreaks.find_optimum_break_point_for_space 30).1 = false :=
  ⟨by decide, by decide, (C3_find_optimum_break_point sampleBreaks 100).2 (by decide),
    by decide⟩

end BreakPoints

/-! ## Theorems about the score options -/

namespace ImoScore

variable {Flt : Type}

/-- C8: after `set_defaults_for_options` on a score with no options,
`get_option("Render.SpacingFactor")` is a float option with value 0.547,
`get_option("Render.SpacingValue")` is a long option with value 15, and
`get_option("Render.SpacingMethod")` is a long option with value k_spacing_proportional. -/
theorem C8_default_spacing_options [OfScientific Flt] (fresh : ImoOptionInfo Flt)
    (k_spacing_proportional : Int) (score : ImoScore Flt) (hnone : score.options = []) :
    (∃ o, (set_defaults_for_options fresh k_spacing_proportional score).get_option
            "Render.SpacingFactor" = some o ∧
          o.type = OptionType.k_number_float ∧ o.float_value = 0.547) ∧
    (∃ o, (set_defaults_for_options fresh k_spacing_proportional score).get_option
            "Render.SpacingValue" = some o ∧
          o.type = OptionType.k_number_long ∧ o.long_value = 15) ∧
    (∃ o, (set_defaults_for_options fresh k_spacing_proportional score).get_option
            "Render.SpacingMethod" = some o ∧
          o.type = OptionType.k_number_long ∧ o.long_value = k_spacing_proportional) := by
  cases score with
  | mk options =>
    simp only at hnone
    subst hnone
    refine ⟨?_, ?_, ?_⟩ <;>
      simp [set_defaults_for_options, m_BoolOptions, m_LongOptions, m_FloatOptions,
        add_bool_default, add_long_default, add_float_default, add_option, get_option,
        get_option_from, ImoOptionInfo.set_name, ImoOptionInfo.set_type,
        ImoOptionInfo.set_bool_value, ImoOptionInfo.set_long_value,
        ImoOptionInfo.set_float_value, ImoOptionInfo.get_name]

/-- C8 on the empty score over the rationals, with `k_spacing_proportional` = 1 and a
blank injected option. -/
theorem C8_default_spacing_options_witness :
    emptyScore.options = [] ∧
    (∃ o, (set_defaults_for_options blankOption 1 emptyScore).get_option
            "Render.SpacingFactor" = some o ∧
          o.type = OptionType.k_number_float ∧ o.float_value = 0.547) ∧
    (∃ o, (set_defaults_for_options blankOption 1 emptyScore).get_option
            "Render.SpacingValue" = some o ∧
          o.type = OptionType.k_number_long ∧ o.long_value = 15) ∧
    (∃ o, (set_defaults_for_options blankOption 1 emptyScore).get_option
            "Render.SpacingMethod" = some o ∧
          o.type = OptionType.k_number_long ∧ o.long_value = 1) :=
  ⟨rfl, C8_default_spacing_options blankOption 1 emptyScore rfl⟩

end ImoScore

/-! ## Theorems about the voice of a line -/

namespace LineTable

variable {Flt LUnits : Type}

/-- C11: if the voice of the line is 0 then `is_line_for_voice(v)` is true for every v and
`is_voiced_defined()` is false; after `set_voice(w)` with w != 0, `is_voiced_defined()` is
true and `is_line_for_voice(v)` is true iff v = w. -/
theorem C11_voice_of_line (t : LineTable LUnits) (v w : Int) :
    (t.get_voice = 0 → t.is_line_for_voice v = true ∧ t.is_voiced_defined = false) ∧
    (w ≠ 0 → (t.set_voice w).is_voiced_defined = true ∧
      ((t.set_voice w).is_line_for_voice v = true ↔ v = w)) := by
  constructor
  · intro h0
    have h : t.m_nVoice = 0 := h0
    simp [is_line_for_voice, is_voiced_defined, h]
  · intro hw
    constructor
    · simp [is_voiced_defined, set_voice, hw]
    · simp only [is_line_for_voice, set_voice, Bool.or_eq_true, beq_iff_eq]
      constructor
      · rintro (h | h)
        · exact absurd h hw
        · exact h.symm
      · intro h
        exact Or.inr h.symm

/-- C11 on the sample table, whose voice is 0, with v = 3 and w = 2. -/
theorem C11_voice_of_line_witness :
    (sampleTable.get_voice = 0 ∧ (2 : Int) ≠ 0) ∧
    (sampleTable.is_line_for_voice 3 = true ∧ sampleTable.is_voiced_defined = false) ∧
    ((sampleTable.set_voice 2).is_voiced_defined = true ∧
      ((sampleTable.set_voice 2).is_line_for_voice 3 = true ↔ (3 : Int) = 2)) :=
  ⟨⟨rfl, by decide⟩, (C11_voice_of_line sampleTable 3 2).1 rfl,
    (C11_voice_of_line sampleTable 3 2).2 (by decide)⟩

end LineTable

/-! ## Theorems about the note functions -/

/-- Decrement of a `size_t` that is not zero. -/
theorem size_t_dec_succ (n : Nat) (h : n + 1 < SIZE_T_RANGE) : size_t_dec (n + 1) = n := by
  unfold size_t_dec
  have : n + 1 + SIZE_T_RANGE - 1 = n + SIZE_T_RANGE := by omega
  rw [this, Nat.add_mod_right, Nat.mod_eq_of_lt (by omega)]

/-- The behaviour of `ldp_pitch_to_components` on a string of at least two characters,
written as a prefix followed by the two last characters: no read is outside the string,
and the result is decided by `to_octave` of the last character, `to_step` of the one
before and `to_accidentals` of the prefix. -/
theorem ldp_pitch_to_components_of_parts (E : PitchEnums) (A : List Char) (S O : Char)
    (out : PitchComponents) (hlen : A.length + 2 < SIZE_T_RANGE) :
    ldp_pitch_to_components E (A ++ [S, O]) out =
      if to_octave O = -1 then some (true, { out with octave := to_octave O })
      else if to_step E S = -1 then
        some (true, { out with octave := to_octave O, step := to_step E S })
      else if A = [] then
        some (false, { step := to_step E S, octave := to_octave O,
                       accidentals := E.k_no_accidentals })
      else if to_accidentals E A = -1 then
        some (true, { step := to_step E S, octave := to_octave O,
                      accidentals := to_accidentals E A })
      else
        some (false, { step := to_step E S, octave := to_octave O,
                       accidentals := to_accidentals E A }) := by
  have hl : (A ++ [S, O]).length = A.length + 1 + 1 := by simp
  have h0 : size_t_dec (A ++ [S, O]).length = A.length + 1 := by
    rw [hl]; exact size_t_dec_succ _ (by omega)
  have h1 : size_t_dec (A.length + 1) = A.length := size_t_dec_succ _ (by omega)
  have hO : (A ++ [S, O])[A.length + 1]? = some O := by
    rw [List.getElem?_append_right (Nat.le_succ _)]
    have : A.length + 1 - A.length = 1 := by omega
    rw [this]
    rfl
  have hS : (A ++ [S, O])[A.length]? = some S := by
    rw [List.getElem?_append_right (Nat.le_refl _), Nat.sub_self]
    rfl
  have h3 : size_t_inc (size_t_dec A.length) = A.length := by
    cases hA : A.length with
    | zero => simp [size_t_dec, size_t_inc, SIZE_T_RANGE]
    | succ n =>
      rw [size_t_dec_succ n (by omega)]
      unfold size_t_inc
      exact Nat.mod_eq_of_lt (by omega)
  have hnot : ¬ (A.length + 1 < 1) := by omega
  unfold ldp_pitch_to_components
  rw [h0]
  dsimp only
  rw [if_neg hnot, hO]
  dsimp only
  rw [h1, hS]
  dsimp only
  rw [h3]
  by_cases hoct : to_octave O = -1
  · simp [hoct]
  · by_cases hstep : to_step E S = -1
    · simp [hoct, hstep]
    · by_cases hA : A = []
      · subst hA
        simp [hoct, hstep]
      · have hlenA : A.length ≠ 0 := by
          intro h
          exact hA (List.length_eq_zero.mp h)
        simp [hoct, hstep, hA, hlenA]

/-- On the digits, `to_octave` is the value of the digit and is not the error value; on
every other character it is the error value -1. -/
theorem to_octave_spec (O : Char) :
    (O ∈ octaveDigits → to_octave O = digitValue O ∧ to_octave O ≠ -1) ∧
    (O ∉ octaveDigits → to_octave O = -1) := by
  constructor
  · intro h
    simp only [octaveDigits, List.mem_cons, List.mem_singleton, List.not_mem_nil, or_false] at h
    rcases h with h | h | h | h | h | h | h | h | h | h <;> subst h <;> decide
  · intro h
    simp only [octaveDigits, List.mem_cons, List.mem_singleton, List.not_mem_nil, or_false,
      not_or] at h
    obtain ⟨h0, h1, h2, h3, h4, h5, h6, h7, h8, h9⟩ := h
    simp [to_octave, h0, h1, h2, h3, h4, h5, h6, h7, h8, h9]

/-- On every character that is not a step letter, `to_step` is the error value -1; on the
step letters it is not, when no step enumerator is -1. -/
theorem to_step_spec (E : PitchEnums) (S : Char) :
    (E.DistinctFromError → S ∈ stepLetters → to_step E S ≠ -1) ∧
    (S ∉ stepLetters → to_step E S = -1) := by
  constructor
  · intro hE h
    obtain ⟨ha, hb, hc, hd, he, hf, hg, _⟩ := hE
    simp only [stepLetters, List.mem_cons, List.mem_singleton, List.not_mem_nil, or_false] at h
    rcases h with h | h | h | h | h | h | h <;> subst h <;> simpa [to_step]
  · intro h
    simp only [stepLetters, List.mem_cons, List.mem_singleton, List.not_mem_nil, or_false,
      not_or] at h
    obtain ⟨h0, h1, h2, h3, h4, h5, h6⟩ := h
    simp [to_step, h0, h1, h2, h3, h4, h5, h6]

/-- On every string that is not one of the eight accidentals, `to_accidentals` is the error
value -1; on the seven written accidentals it is not, when none of their enumerators
is -1. -/
theorem to_accidentals_spec (E : PitchEnums) (A : List Char) :
    (E.DistinctFromError → A ∈ accidentalsPrefixes → A ≠ [] → to_accidentals E A ≠ -1) ∧
    (A ∉ accidentalsPrefixes → to_accidentals E A = -1) := by
  constructor
  · intro hE h hne
    obtain ⟨_, _, _, _, _, _, _, h1, h2, h3, h4, h5, h6, h7⟩ := hE
    simp only [accidentalsPrefixes, List.mem_cons, List.mem_singleton, List.not_mem_nil,
      or_false] at h
    rcases h with h | h | h | h | h | h | h | h <;> subst h
    · exact absurd rfl hne
    all_goals simpa [to_accidentals]
  · intro h
    simp only [accidentalsPrefixes, List.mem_cons, List.mem_singleton, List.not_mem_nil,
      or_false, not_or] at h
    obtain ⟨h0, h1, h2, h3, h4, h5, h6, h7⟩ := h
    match A, h0, h1, h2, h3, h4, h5, h6, h7 with
    | [], h0, _, _, _, _, _, _, _ => exact absurd rfl h0
    | [c], _, h1, h2, h3, h4, _, _, _ =>
      have c1 : c ≠ '+' := fun h => h1 (by rw [h])
      have c2 : c ≠ '-' := fun h => h2 (by rw [h])
      have c3 : c ≠ '=' := fun h => h3 (by rw [h])
      have c4 : c ≠ 'x' := fun h => h4 (by rw [h])
      simp [to_accidentals, c1, c2, c3, c4]
    | [c, d], _, _, _, _, _, h5, h6, h7 =>
      simp only [to_accidentals, h5, h6, h7, if_false]
    | _ :: _ :: _ :: _, _, _, _, _, _, _, _, _ => simp [to_accidentals]

/-- C12: for every string made of one of the accidentals "", "+", "-", "=", "x", "++",
"--", "=-", then a step letter a..g, then a digit 0..9, `ldp_pitch_to_components` reads
inside the string only, returns false (no error) and stores step = `to_step` of the
letter, octave = the value of the digit and accidentals = `to_accidentals` of the
accidentals, which is `k_no_accidentals` when they are empty.  The enumerators returned
for a letter or for written accidentals are taken to differ from the error value -1. -/
theorem C12_valid_pitch_components (E : PitchEnums) (hE : E.DistinctFromError)
    (A : List Char) (S O : Char) (out : PitchComponents)
    (hA : A ∈ accidentalsPrefixes) (hS : S ∈ stepLetters) (hO : O ∈ octaveDigits) :
    ldp_pitch_to_components E (A ++ [S, O]) out =
      some (false, { step := to_step E S, octave := digitValue O,
                     accidentals := to_accidentals E A }) ∧
    to_accidentals E [] = E.k_no_accidentals := by
  refine ⟨?_, rfl⟩
  have hlen : A.length + 2 < SIZE_T_RANGE := by
    have : A.length ≤ 2 := by
      simp only [accidentalsPrefixes, List.mem_cons, List.mem_singleton, List.not_mem_nil,
        or_false] at hA
      rcases hA with h | h | h | h | h | h | h | h <;> subst h <;> decide
    have : (4 : Nat) < SIZE_T_RANGE := by decide
    omega
  obtain ⟨hoct, hoct2⟩ := (to_octave_spec O).1 hO
  have hstep := (to_step_spec E S).1 hE hS
  rw [ldp_pitch_to_components_of_parts E A S O out hlen, if_neg hoct2, if_neg hstep, hoct]
  by_cases hnil : A = []
  · subst hnil
    rfl
  · rw [if_neg hnil, if_neg ((to_accidentals_spec E A).1 hE hA hnil)]

/-- C12 on the string "=-b9" with the sample enumerators: no error, step B, octave 9,
accidentals natural-flat. -/
theorem C12_valid_pitch_components_witness :
    (samplePitchEnums.DistinctFromError ∧ ['=', '-'] ∈ accidentalsPrefixes ∧
      'b' ∈ stepLetters ∧ '9' ∈ octaveDigits) ∧
    ldp_pitch_to_components samplePitchEnums (['=', '-'] ++ ['b', '9']) somePitchComponents =
      some (false, { step := to_step samplePitchEnums 'b', octave := digitValue '9',
                     accidentals := to_accidentals samplePitchEnums ['=', '-'] }) ∧
    to_accidentals samplePitchEnums [] = samplePitchEnums.k_no_accidentals :=
  ⟨⟨by decide, by decide, by decide, by decide⟩,
    C12_valid_pitch_components samplePitchEnums (by decide) ['=', '-'] 'b' '9'
      somePitchComponents (by decide) (by decide) (by decide)⟩

/-- C13 (the code at the failing input): on the empty string `pitch.length() - 1` wraps to
the largest `size_t`, the test `i < 1` does not hold, and the function reads `pitch[i]`
outside the string instead of returning true. -/
theorem C13_empty_pitch_reads_outside (E : PitchEnums) (out : PitchComponents) :
    ldp_pitch_to_components E [] out = none ∧
    size_t_dec ([] : List Char).length = 18446744073709551615 := by
  constructor
  · unfold ldp_pitch_to_components
    have h : size_t_dec ([] : List Char).length = 18446744073709551615 := by decide
    rw [h]
    rfl
  · decide

/-- A string of at least two characters is a prefix followed by its two last characters. -/
theorem exists_two_last (pitch : List Char) (h : 2 ≤ pitch.length) :
    ∃ A S O, pitch = A ++ [S, O] := by
  refine ⟨pitch.take (pitch.length - 2), pitch.get ⟨pitch.length - 2, by omega⟩,
    pitch.get ⟨pitch.length - 1, by omega⟩, ?_⟩
  apply List.ext_getElem
  · simp
    omega
  · intro i h1 h2
    by_cases hi : i < pitch.length - 2
    · rw [List.getElem_append_left (by simp; omega)]
      simp
    · rw [List.getElem_append_right (by simp; omega)]
      have hlen : (List.take (pitch.length - 2) pitch).length = pitch.length - 2 := by
        simp
      by_cases hi2 : i = pitch.length - 2
      · subst hi2
        simp
      · have hi3 : i = pitch.length - 1 := by omega
        subst hi3
        have : pitch.length - 1 - (pitch.length - 2) = 1 := by omega
        simp [this]

/-- The part of C13 that the code satisfies: on every non-empty string (shorter than the
range of `size_t`) `ldp_pitch_to_components` reads inside the string only, and it returns
false (no error) exactly when the string is an accidentals prefix, a step letter and an
octave digit; on every other non-empty string it returns true. -/
theorem ldp_pitch_to_components_on_nonempty (E : PitchEnums) (hE : E.DistinctFromError)
    (pitch : List Char) (out : PitchComponents) (hne : pitch ≠ [])
    (hlen : pitch.length < SIZE_T_RANGE) :
    ∃ flag result, ldp_pitch_to_components E pitch out = some (flag, result) ∧
      (flag = false ↔ ∃ A S O, A ∈ accidentalsPrefixes ∧ S ∈ stepLetters ∧
        O ∈ octaveDigits ∧ pitch = A ++ [S, O]) := by
  by_cases h2 : 2 ≤ pitch.length
  · obtain ⟨A, S, O, rfl⟩ := exists_two_last pitch h2
    have hl : A.length + 2 < SIZE_T_RANGE := by simpa using hlen
    have huniq : ∀ A2 S2 O2, A ++ [S, O] = A2 ++ [S2, O2] → A2 = A ∧ S2 = S ∧ O2 = O := by
      intro A2 S2 O2 h
      have := List.append_inj_right' h rfl
      have hA := List.append_inj_left' h rfl
      simp at this
      exact ⟨hA.symm, this.1.symm, this.2.symm⟩
    rw [ldp_pitch_to_components_of_parts E A S O out hl]
    by_cases hO : O ∈ octaveDigits
    · obtain ⟨_, hoct⟩ := (to_octave_spec O).1 hO
      rw [if_neg hoct]
      by_cases hS : S ∈ stepLetters
      · rw [if_neg ((to_step_spec E S).1 hE hS)]
        by_cases hnil : A = []
        · rw [if_pos hnil]
          refine ⟨false, _, rfl, ?_⟩
          subst hnil
          exact ⟨fun _ => ⟨[], S, O, by decide, hS, hO, rfl⟩, fun _ => rfl⟩
        · rw [if_neg hnil]
          by_cases hA : A ∈ accidentalsPrefixes
          · rw [if_neg ((to_accidentals_spec E A).1 hE hA hnil)]
            exact ⟨false, _, rfl, fun _ => ⟨A, S, O, hA, hS, hO, rfl⟩, fun _ => rfl⟩
          · rw [if_pos ((to_accidentals_spec E A).2 hA)]
            refine ⟨true, _, rfl, fun h => Bool.noConfusion h, ?_⟩
            rintro ⟨A2, S2, O2, hA2, _, _, heq⟩
            obtain ⟨rfl, _, _⟩ := huniq A2 S2 O2 heq
            exact absurd hA2 hA
      · rw [if_pos ((to_step_spec E S).2 hS)]
        refine ⟨true, _, rfl, fun h => Bool.noConfusion h, ?_⟩
        rintro ⟨A2, S2, O2, _, hS2, _, heq⟩
        obtain ⟨_, rfl, _⟩ := huniq A2 S2 O2 heq
        exact absurd hS2 hS
    · rw [if_pos ((to_octave_spec O).2 hO)]
      refine ⟨true, _, rfl, fun h => Bool.noConfusion h, ?_⟩
      rintro ⟨A2, S2, O2, _, _, hO2, heq⟩
      obtain ⟨_, _, rfl⟩ := huniq A2 S2 O2 heq
      exact absurd hO2 hO
  · have h1 : pitch.length = 1 := by
      have : pitch.length ≠ 0 := fun h => hne (List.length_eq_zero.mp h)
      omega
    refine ⟨true, out, ?_, fun h => Bool.noConfusion h, ?_⟩
    · unfold ldp_pitch_to_components
      rw [h1]
      rfl
    · rintro ⟨A2, S2, O2, _, _, _, heq⟩
      rw [heq] at h1
      simp at h1

/-- The first switch of `to_duration`: the duration of an undotted note of type t in
0..10 is 2^(10-t). -/
theorem to_duration_base {Flt : Type} [Field Flt] [CharZero Flt] (t : Int)
    (ht0 : 0 ≤ t) (ht : t ≤ 10) :
    (if t = k_longa then (1024 : Flt)
      else if t = k_breve then 512
      else if t = k_whole then 256
      else if t = k_half then 128
      else if t = k_quarter then 64
      else if t = k_eighth then 32
      else if t = k_16th then 16
      else if t = k_32th then 8
      else if t = k_64th then 4
      else if t = k_128th then 2
      else if t = k_256th then 1
      else 64) = (2 : Flt) ^ (10 - t) := by
  simp only [k_longa, k_breve, k_whole, k_half, k_quarter, k_eighth, k_16th, k_32th,
    k_64th, k_128th, k_256th]
  interval_cases t <;> norm_num

/-- The second switch of `to_duration`: d dots, d in 0..9, multiply a duration
by 2 - 2^(-d). -/
theorem to_duration_dots {Flt : Type} [Field Flt] [CharZero Flt] (r : Flt) (d : Int)
    (hd0 : 0 ≤ d) (hd : d ≤ 9) :
    (if d = 0 then r
      else if d = 1 then r * 1.5
      else if d = 2 then r * 1.75
      else if d = 3 then r * 1.875
      else if d = 4 then r * 1.9375
      else if d = 5 then r * 1.96875
      else if d = 6 then r * 1.984375
      else if d = 7 then r * 1.9921875
      else if d = 8 then r * 1.99609375
      else if d = 9 then r * 1.998046875
      else r) = r * (2 - (2 : Flt) ^ (-d)) := by
  interval_cases d <;> norm_num

/-- C15: for every note type t in 0..10 (longa..256th) and every number of dots d in 0..9,
`to_duration(t, d)` = 2^(10-t) * (2 - 2^(-d)); in particular `to_duration(t, 0)` =
2^(10-t), and a quarter note lasts 64 duration units. -/
theorem C15_to_duration {Flt : Type} [Field Flt] [CharZero Flt] (t d : Int)
    (ht0 : 0 ≤ t) (ht : t ≤ 10) (hd0 : 0 ≤ d) (hd : d ≤ 9) :
    (to_duration t d : Flt) = (2 : Flt) ^ (10 - t) * (2 - (2 : Flt) ^ (-d)) ∧
    (to_duration t 0 : Flt) = (2 : Flt) ^ (10 - t) ∧
    (to_duration k_quarter 0 : Flt) = 64 := by
  have hbase := @to_duration_base Flt _ _ t ht0 ht
  refine ⟨?_, ?_, ?_⟩
  · unfold to_duration
    rw [hbase]
    exact to_duration_dots _ d hd0 hd
  · unfold to_duration
    rw [hbase]
    rfl
  · have h4 := @to_duration_base Flt _ _ k_quarter (by decide) (by decide)
    unfold to_duration
    rw [h4]
    simp only [k_quarter]
    norm_num

/-- C15 over the rationals for a dotted eighth note: 32 * 1.5 = 2^5 * (2 - 2^(-1)). -/
theorem C15_to_duration_witness :
    ((0 : Int) ≤ 5 ∧ (5 : Int) ≤ 10 ∧ (0 : Int) ≤ 1 ∧ (1 : Int) ≤ 9) ∧
    (to_duration 5 1 : Rat) = (2 : Rat) ^ ((10 : Int) - 5) * (2 - (2 : Rat) ^ (-(1 : Int))) ∧
    (to_duration 5 0 : Rat) = (2 : Rat) ^ ((10 : Int) - 5) ∧
    (to_duration k_quarter 0 : Rat) = 64 :=
  ⟨⟨by decide, by decide, by decide, by decide⟩,
    C15_to_duration 5 1 (by decide) (by decide) (by decide) (by decide)⟩

namespace ImoTimeSignature

/-- An `int` of absolute value at most 2^24 is converted to `float` without rounding. -/
theorem int_to_float_exact (m : Int) (hlow : -16777216 ≤ m) (hhigh : m ≤ 16777216) :
    int_to_float m = m := by
  have hround : round_to_multiple m.natAbs (float_shift m.natAbs m.natAbs) = m.natAbs := by
    by_cases hmax : m.natAbs = 16777216
    · rw [hmax]
      decide
    · have hlt : m.natAbs < 2 ^ 24 := by omega
      have hshift : float_shift m.natAbs m.natAbs = 0 := by
        cases hcase : m.natAbs with
        | zero => rfl
        | succ k =>
          rw [hcase] at hlt
          simp only [float_shift, if_pos hlt]
      rw [hshift]
      have hmod : m.natAbs % 2 ^ 0 = 0 := Nat.mod_one _
      unfold round_to_multiple
      rw [hmod]
      simp
  unfold int_to_float
  rw [hround]
  by_cases hneg : m < 0
  · rw [if_pos hneg]
    omega
  · rw [if_neg hneg]
    omega

/-- C19 (as stated, refuted): for 2^24 + 1 beats of a quarter note `get_measure_duration()`
is 1073741824, not beats * 256 / 4 = 1073741888: the conversion of `m_beats` to `float`
rounds 16777217 to 16777216. -/
theorem C19_counterexample :
    manyBeats.m_beatType ∈ [(1 : Int), 2, 4, 8, 16] ∧
    (manyBeats.get_measure_duration : Rat) = 1073741824 ∧
    (manyBeats.get_measure_duration : Rat) ≠
      (manyBeats.m_beats : Rat) * 256 / (manyBeats.m_beatType : Rat) := by
  have hconv : int_to_float 16777217 = 16777216 := by decide
  have hvalue : (manyBeats.get_measure_duration : Rat) = 1073741824 := by
    unfold get_measure_duration get_beat_duration
    simp only [manyBeats, hconv, k_whole, k_half, k_quarter, k_eighth, k_16th]
    norm_num
  refine ⟨by decide, hvalue, ?_⟩
  rw [hvalue]
  simp only [manyBeats]
  norm_num

/-- C19 (amended): for a time signature with beat type b in {1, 2, 4, 8, 16},
`get_beat_duration()` is `to_duration` of the matching note type (whole, half, quarter,
eighth, 16th) with no dots, that is 256 / b duration units; `get_measure_duration()` is
float(beats) * 256 / b, where float(beats) is the number of beats converted to `float`,
and it is beats * 256 / b when the absolute value of beats is at most 2^24. -/
theorem C19_beat_and_measure_duration {Flt : Type} [Field Flt] [CharZero Flt]
    (ts : ImoTimeSignature) (hb : ts.m_beatType ∈ [(1 : Int), 2, 4, 8, 16]) :
    (ts.get_beat_duration : Flt) = 256 / (ts.m_beatType : Flt) ∧
    (ts.get_measure_duration : Flt) =
      ((int_to_float ts.m_beats : Int) : Flt) * 256 / (ts.m_beatType : Flt) ∧
    (-16777216 ≤ ts.m_beats → ts.m_beats ≤ 16777216 →
      (ts.get_measure_duration : Flt) = (ts.m_beats : Flt) * 256 / (ts.m_beatType : Flt)) ∧
    (ts.m_beatType = 1 → (ts.get_beat_duration : Flt) = to_duration k_whole 0) ∧
    (ts.m_beatType = 2 → (ts.get_beat_duration : Flt) = to_duration k_half 0) ∧
    (ts.m_beatType = 4 → (ts.get_beat_duration : Flt) = to_duration k_quarter 0) ∧
    (ts.m_beatType = 8 → (ts.get_beat_duration : Flt) = to_duration k_eighth 0) ∧
    (ts.m_beatType = 16 → (ts.get_beat_duration : Flt) = to_duration k_16th 0) := by
  have hbeat : (ts.get_beat_duration : Flt) = 256 / (ts.m_beatType : Flt) := by
    simp only [List.mem_cons, List.mem_singleton, List.not_mem_nil, or_false] at hb
    unfold get_beat_duration
    simp only [k_whole, k_half, k_quarter, k_eighth, k_16th]
    rcases hb with h | h | h | h | h <;> rw [h] <;> norm_num
  have hdur : ∀ t : Int, 0 ≤ t → t ≤ 10 → (to_duration t 0 : Flt) = (2 : Flt) ^ (10 - t) := by
    intro t ht0 ht
    have hbase := @to_duration_base Flt _ _ t ht0 ht
    unfold to_duration
    rw [hbase]
    rfl
  have hmeasure : (ts.get_measure_duration : Flt) =
      ((int_to_float ts.m_beats : Int) : Flt) * 256 / (ts.m_beatType : Flt) := by
    unfold get_measure_duration
    rw [hbeat, mul_div_assoc]
  refine ⟨hbeat, hmeasure, ?_, ?_, ?_, ?_, ?_, ?_⟩
  · intro hlow hhigh
    rw [hmeasure, int_to_float_exact ts.m_beats hlow hhigh]
  · intro h
    rw [hbeat, h, hdur k_whole (by decide) (by decide)]
    simp only [k_whole]
    norm_num
  · intro h
    rw [hbeat, h, hdur k_half (by decide) (by decide)]
    simp only [k_half]
    norm_num
  · intro h
    rw [hbeat, h, hdur k_quarter (by decide) (by decide)]
    simp only [k_quarter]
    norm_num
  · intro h
    rw [hbeat, h, hdur k_eighth (by decide) (by decide)]
    simp only [k_eighth]
    norm_num
  · intro h
    rw [hbeat, h, hdur k_16th (by decide) (by decide)]
    simp only [k_16th]
    norm_num

/-- C19 (amended) over the rationals for the time signature 6/8: a beat lasts 256 / 8
units, as an eighth note, and a measure 6 * 256 / 8 units. -/
theorem C19_beat_and_measure_duration_witness :
    (sixEight.m_beatType ∈ [(1 : Int), 2, 4, 8, 16] ∧
      -16777216 ≤ sixEight.m_beats ∧ sixEight.m_beats ≤ 16777216) ∧
    (sixEight.get_beat_duration : Rat) = 256 / (sixEight.m_beatType : Rat) ∧
    (sixEight.get_measure_duration : Rat) =
      (sixEight.m_beats : Rat) * 256 / (sixEight.m_beatType : Rat) ∧
    (sixEight.get_beat_duration : Rat) = to_duration k_eighth 0 :=
  ⟨⟨by decide, by decide, by decide⟩,
    (C19_beat_and_measure_duration sixEight (by decide)).1,
    (C19_beat_and_measure_duration sixEight (by decide)).2.2.1 (by decide) (by decide),
    (C19_beat_and_measure_duration sixEight (by decide)).2.2.2.2.2.2.1 rfl⟩

end ImoTimeSignature

/-! ## Theorems about timed and non-timed entries -/

/-- C18: at a position `it` that is not the end of the table, `LineSpacer::is_non_timed_object`
holds iff the timepos of the entry is negative and `is_timed_object` holds iff it is >= 0,
so exactly one of the two holds; at the end of the table both are false; and
`TimeGridLineExplorer::is_current_object_non_timed` and `current_object_is_timed`, for an
explorer of the same table whose current position is `it`, give the same answers. -/
theorem C18_timed_or_non_timed {Flt LUnits : Type} [LinearOrder Flt] [Zero Flt]
    (store : EntryStore Flt LUnits) (sp : LineSpacer Flt LUnits)
    (ex : TimeGridLineExplorer Flt LUnits) (it : Nat)
    (htable : ex.m_pTable = sp.m_pTable) (hcur : ex.m_itCur = it) :
    (∀ p, sp.m_pTable.m_LineEntries[it]? = some p →
      (sp.is_non_timed_object store it = true ↔ (store p).get_timepos < 0) ∧
      (sp.is_timed_object store it = true ↔ (store p).get_timepos ≥ 0) ∧
      (sp.is_non_timed_object store it = !sp.is_timed_object store it)) ∧
    (it = sp.m_pTable.it_end →
      sp.is_non_timed_object store it = false ∧ sp.is_timed_object store it = false) ∧
    ex.is_current_object_non_timed store = sp.is_non_timed_object store it ∧
    ex.current_object_is_timed store = sp.is_timed_object store it := by
  refine ⟨?_, ?_, ?_, ?_⟩
  · intro p hp
    have hlt : it < sp.m_pTable.m_LineEntries.length := by
      by_contra h
      rw [List.getElem?_eq_none (Nat.le_of_not_lt h)] at hp
      exact Option.noConfusion hp
    have hne : (it != sp.m_pTable.it_end) = true := by
      simp only [LineTable.it_end, bne_iff_ne]
      omega
    have htime : timepos_at store sp.m_pTable it = some (store p).get_timepos := by
      simp [timepos_at, hp]
    simp only [LineSpacer.is_non_timed_object, LineSpacer.is_timed_object, hne, htime,
      Bool.true_and, decide_eq_true_eq]
    refine ⟨trivial, trivial, ?_⟩
    by_cases hneg : (store p).get_timepos < 0
    · have : ¬ (store p).get_timepos ≥ 0 := not_le.mpr hneg
      simp [hneg, this]
    · have : (store p).get_timepos ≥ 0 := not_lt.mp hneg
      simp [hneg, this]
  · intro hend
    have : (it != sp.m_pTable.it_end) = false := by simp [hend]
    simp [LineSpacer.is_non_timed_object, LineSpacer.is_timed_object, this]
  · simp [TimeGridLineExplorer.is_current_object_non_timed, LineSpacer.is_non_timed_object,
      htable, hcur]
  · simp [TimeGridLineExplorer.current_object_is_timed, LineSpacer.is_timed_object,
      htable, hcur]

/-- C18 on the sample line [10, 11, 12]: the entry at position 0 has timepos -1 and is
non-timed, not timed, for the spacer and for the explorer. -/
theorem C18_timed_or_non_timed_witness :
    ((sampleExplorer 0).m_pTable = sampleSpacer.m_pTable ∧ (sampleExplorer 0).m_itCur = 0 ∧
      sampleSpacer.m_pTable.m_LineEntries[0]? = some 10 ∧
      (sampleStore 10).get_timepos < 0) ∧
    sampleSpacer.is_non_timed_object sampleStore 0 = true ∧
    sampleSpacer.is_timed_object sampleStore 0 = false ∧
    (sampleExplorer 0).is_current_object_non_timed sampleStore = true ∧
    (sampleExplorer 0).current_object_is_timed sampleStore = false :=
  ⟨⟨rfl, rfl, rfl, by decide⟩,
    ((C18_timed_or_non_timed sampleStore sampleSpacer (sampleExplorer 0) 0 rfl rfl).1
      10 rfl).1.mpr (by decide),
    by decide, by decide, by decide⟩

/-! ## Theorems about ImoBeamDto -/

namespace ImoBeamDto

/-- Every level is visited by the loops. -/
theorem mem_levels (level : Fin 6) : level ∈ levels := by
  revert level
  decide

/-- The loop of `is_start_of_beam` returns true iff none of the levels visited is end or
continue, and `fStart` was true or one of the levels visited is not none. -/
theorem is_start_of_beam_loop_spec (dto : ImoBeamDto) (ls : List (Fin 6)) (fStart : Bool) :
    is_start_of_beam_loop dto ls fStart = true ↔
      (∀ level ∈ ls, dto.m_beamType level ≠ BeamType.k_end ∧
        dto.m_beamType level ≠ BeamType.k_continue) ∧
      (fStart = true ∨ ∃ level ∈ ls, dto.m_beamType level ≠ BeamType.k_none) := by
  induction ls generalizing fStart with
  | nil => simp [is_start_of_beam_loop]
  | cons level rest ih =>
    by_cases hstop : dto.m_beamType level = BeamType.k_end ∨
        dto.m_beamType level = BeamType.k_continue
    · simp only [is_start_of_beam_loop, if_pos hstop, Bool.false_eq_true, false_iff]
      rintro ⟨hall, _⟩
      have := hall level (List.mem_cons_self level rest)
      rcases hstop with h | h
      · exact this.1 h
      · exact this.2 h
    · simp only [is_start_of_beam_loop, if_neg hstop, ih]
      have hok : dto.m_beamType level ≠ BeamType.k_end ∧
          dto.m_beamType level ≠ BeamType.k_continue := not_or.mp hstop
      by_cases hnone : dto.m_beamType level = BeamType.k_none
      · simp [hnone]
      · simp [hnone, hok]

/-- The loop of `is_end_of_beam` returns true iff none of the levels visited is begin,
forward or continue. -/
theorem is_end_of_beam_loop_spec (dto : ImoBeamDto) (ls : List (Fin 6)) :
    is_end_of_beam_loop dto ls = true ↔
      ∀ level ∈ ls, dto.m_beamType level ≠ BeamType.k_begin ∧
        dto.m_beamType level ≠ BeamType.k_forward ∧
        dto.m_beamType level ≠ BeamType.k_continue := by
  induction ls with
  | nil => simp [is_end_of_beam_loop]
  | cons level rest ih =>
    by_cases hstop : dto.m_beamType level = BeamType.k_begin ∨
        dto.m_beamType level = BeamType.k_forward ∨
        dto.m_beamType level = BeamType.k_continue
    · simp only [is_end_of_beam_loop, if_pos hstop, Bool.false_eq_true, false_iff]
      intro hall
      have := hall level (List.mem_cons_self level rest)
      rcases hstop with h | h | h
      · exact this.1 h
      · exact this.2.1 h
      · exact this.2.2 h
    · simp only [is_end_of_beam_loop, if_neg hstop, ih, List.mem_cons, forall_eq_or_imp]
      have hok := not_or.mp hstop
      have hok2 := not_or.mp hok.2
      simp [hok.1, hok2.1, hok2.2]

/-- C20: `is_start_of_beam()` is true iff no level is end or continue and at least one
level is begin, forward or backward; `is_end_of_beam()` is true iff no level is begin,
forward or continue. -/
theorem C20_start_and_end_of_beam (dto : ImoBeamDto) :
    (dto.is_start_of_beam = true ↔
      (∀ level : Fin 6, dto.get_beam_type level ≠ BeamType.k_end ∧
        dto.get_beam_type level ≠ BeamType.k_continue) ∧
      (∃ level : Fin 6, dto.get_beam_type level = BeamType.k_begin ∨
        dto.get_beam_type level = BeamType.k_forward ∨
        dto.get_beam_type level = BeamType.k_backward)) ∧
    (dto.is_end_of_beam = true ↔
      ∀ level : Fin 6, dto.get_beam_type level ≠ BeamType.k_begin ∧
        dto.get_beam_type level ≠ BeamType.k_forward ∧
        dto.get_beam_type level ≠ BeamType.k_continue) := by
  constructor
  · unfold is_start_of_beam
    rw [is_start_of_beam_loop_spec]
    simp only [get_beam_type, Bool.false_eq_true, false_or]
    constructor
    · rintro ⟨hall, level, _, hnone⟩
      refine ⟨fun l => hall l (mem_levels l), level, ?_⟩
      have h := hall level (mem_levels level)
      cases hbt : dto.m_beamType level with
      | k_none => exact absurd hbt hnone
      | k_begin => exact Or.inl rfl
      | k_continue => exact absurd hbt h.2
      | k_end => exact absurd hbt h.1
      | k_forward => exact Or.inr (Or.inl rfl)
      | k_backward => exact Or.inr (Or.inr rfl)
    · rintro ⟨hall, level, hsome⟩
      refine ⟨fun l _ => hall l, level, mem_levels level, ?_⟩
      rcases hsome with h | h | h <;> rw [h] <;> decide
  · unfold is_end_of_beam
    rw [is_end_of_beam_loop_spec]
    simp only [get_beam_type]
    exact ⟨fun h l => h l (mem_levels l), fun h l _ => h l⟩

/-- C20 on a beam information with levels begin, forward, none, none, none, none: it is a
start of beam and not an end of beam. -/
theorem C20_start_and_end_of_beam_witness :
    sampleStart.is_start_of_beam = true ∧ sampleStart.is_end_of_beam = false ∧
    ((∀ level : Fin 6, sampleStart.get_beam_type level ≠ BeamType.k_end ∧
        sampleStart.get_beam_type level ≠ BeamType.k_continue) ∧
      (∃ level : Fin 6, sampleStart.get_beam_type level = BeamType.k_begin ∨
        sampleStart.get_beam_type level = BeamType.k_forward ∨
        sampleStart.get_beam_type level = BeamType.k_backward)) :=
  ⟨by decide, by decide, (C20_start_and_end_of_beam sampleStart).1.mp (by decide)⟩

end ImoBeamDto

/-! ## Theorems about the type-to-name table -/

namespace ImoObj

/-- The constructor leaves the flag `m_fNamesRegistered` set. -/
theorem register_names_flag (code : ImoTypeName → Int) (s : NamesState) :
    (register_names code s).m_fNamesRegistered = true := by
  unfold register_names
  cases h : s.m_fNamesRegistered
  · rfl
  · simpa using h

/-- Once the flag is set the constructor does not change the statics. -/
theorem register_names_of_registered (code : ImoTypeName → Int) (s : NamesState)
    (h : s.m_fNamesRegistered = true) : register_names code s = s := by
  unfold register_names
  simp [h]

/-- Constructing further objects when the flag is set does not change the statics. -/
theorem construct_all_of_registered (code : ImoTypeName → Int) (args : List (Int × Int))
    (s : NamesState) (h : s.m_fNamesRegistered = true) : construct_all code s args = s := by
  induction args with
  | nil => rfl
  | cons a rest ih =>
    have hstep : (construct code s a.1 a.2).2 = s := register_names_of_registered code s h
    show construct_all code (construct code s a.1 a.2).2 rest = s
    rw [hstep]
    exact ih

/-- A sequence of assignments to keys different from `type` does not change what the map
holds for `type`. -/
theorem assign_rows_other (code : ImoTypeName → Int) (rows : List (ImoTypeName × String))
    (m : IntMap String) (type : Int) (h : ∀ row ∈ rows, code row.1 ≠ type) :
    (rows.foldl (fun m row => m.assign (code row.1) row.2) m) type = m type := by
  induction rows generalizing m with
  | nil => rfl
  | cons row rest ih =>
    simp only [List.foldl_cons]
    rw [ih _ (fun r hr => h r (List.mem_cons_of_mem row hr))]
    have hne : type ≠ code row.1 := fun e => h row (List.mem_cons_self row rest) e.symm
    simp [IntMap.assign, Function.update_noteq hne]

/-- C17: the initialisation of the type-to-name table is idempotent: after one `ImoObj`
has been constructed (from any state of the statics), constructing any number of further
objects leaves the table and the flag unchanged, so `get_name(t)` returns the same string
for every type t; `get_name` returns "unknown" for a type for which the table has no
name, and, starting from the initial statics, that is every type that is not the value of
one of the registered enumerators. -/
theorem C17_names_table_idempotent (code : ImoTypeName → Int) (s : NamesState)
    (objtype id : Int) (more : List (Int × Int)) (t : Int) :
    construct_all code (construct code s objtype id).2 more = (construct code s objtype id).2 ∧
    get_name (construct_all code (construct code s objtype id).2 more) t =
      get_name (construct code s objtype id).2 t ∧
    ((construct code s objtype id).2.m_TypeToName.find t = none →
      get_name (construct code s objtype id).2 t = "unknown") ∧
    ((∀ row ∈ registeredNames, code row.1 ≠ t) →
      get_name (construct_all code (construct code initialNames objtype id).2 more) t
        = "unknown") := by
  have hflag : ∀ s0 : NamesState, (construct code s0 objtype id).2.m_fNamesRegistered = true :=
    fun s0 => register_names_flag code s0
  have hsame : ∀ s0 : NamesState,
      construct_all code (construct code s0 objtype id).2 more = (construct code s0 objtype id).2 :=
    fun s0 => construct_all_of_registered code more _ (hflag s0)
  refine ⟨hsame s, by rw [hsame s], ?_, ?_⟩
  · intro hnone
    unfold get_name
    rw [hnone]
    rfl
  · intro hother
    rw [hsame initialNames]
    have hfind : (construct code initialNames objtype id).2.m_TypeToName.find t = none := by
      show (registeredNames.foldl (fun m row => m.assign (code row.1) row.2)
        IntMap.empty) t = none
      rw [assign_rows_other code registeredNames IntMap.empty t hother]
      rfl
    unfold get_name
    rw [hfind]
    rfl

/-- C17 with the sample values of the enumerators: after a first object, two more
constructions leave the statics as they are, and the type `k_imo_instrument_groups`, which
the constructor does not register, is named "unknown". -/
theorem C17_names_table_idempotent_witness :
    (∀ row ∈ registeredNames,
      sampleCode row.1 ≠ sampleCode ImoTypeName.k_imo_instrument_groups) ∧
    construct_all sampleCode (construct sampleCode initialNames 3 1).2 [(5, 2), (7, 3)] =
      (construct sampleCode initialNames 3 1).2 ∧
    get_name (construct_all sampleCode (construct sampleCode initialNames 3 1).2
      [(5, 2), (7, 3)]) (sampleCode ImoTypeName.k_imo_instrument_groups) = "unknown" :=
  ⟨by decide,
    (C17_names_table_idempotent sampleCode initialNames 3 1 [(5, 2), (7, 3)]
      (sampleCode ImoTypeName.k_imo_instrument_groups)).1,
    (C17_names_table_idempotent sampleCode initialNames 3 1 [(5, 2), (7, 3)]
      (sampleCode ImoTypeName.k_imo_instrument_groups)).2.2.2 (by decide)⟩

end ImoObj

/-! ## Theorems about ImoAttachments -/

namespace ImoAttachments

/-- A priority is at most 5000, and a priority above 1000 is 5000. -/
theorem get_priority_bounds (code : ImoTypeName → Int) (type : Int) :
    get_priority code type ≤ 5000 ∧
      (get_priority code type > 1000 → get_priority code type = 5000) := by
  unfold get_priority priorityTable IntMap.find IntMap.assign IntMap.empty Function.update
  simp only [eq_rec_constant, dite_eq_ite]
  split_ifs <;> simp

/-- Inserting by priority places the new item somewhere in the list, and keeps the order
of a list ordered by priority. -/
theorem insert_by_priority_spec (code : ImoTypeName → Int) (pAO : ImoAuxObj)
    (l : List ImoAuxObj) :
    (∃ l1 l2, l = l1 ++ l2 ∧
      insert_by_priority code (get_priority code pAO.get_obj_type) pAO l = l1 ++ pAO :: l2) ∧
    (SortedByPriority code l →
      SortedByPriority code
        (insert_by_priority code (get_priority code pAO.get_obj_type) pAO l)) := by
  induction l with
  | nil =>
    refine ⟨⟨[], [], rfl, rfl⟩, fun _ => ?_⟩
    simp [insert_by_priority, SortedByPriority]
  | cons item rest ih =>
    obtain ⟨⟨l1, l2, hl, hins⟩, hsorted⟩ := ih
    by_cases hgt : get_priority code item.get_obj_type > get_priority code pAO.get_obj_type
    · refine ⟨⟨[], item :: rest, rfl, by simp [insert_by_priority, hgt]⟩, fun hs => ?_⟩
      simp only [insert_by_priority, if_pos hgt]
      unfold SortedByPriority at hs ⊢
      refine List.pairwise_cons.mpr ⟨?_, hs⟩
      intro b hb
      rcases List.mem_cons.mp hb with hb | hb
      · rw [hb]
        exact le_of_lt hgt
      · have := (List.pairwise_cons.mp hs).1 b hb
        exact le_trans (le_of_lt hgt) this
    · refine ⟨⟨item :: l1, l2, by rw [hl]; rfl, ?_⟩, fun hs => ?_⟩
      · simp only [insert_by_priority, if_neg hgt, hins]
        rfl
      · simp only [insert_by_priority, if_neg hgt]
        unfold SortedByPriority at hs hsorted ⊢
        obtain ⟨hhead, htail⟩ := List.pairwise_cons.mp hs
        refine List.pairwise_cons.mpr ⟨?_, hsorted htail⟩
        intro b hb
        rw [hins] at hb
        rcases List.mem_append.mp hb with hb | hb
        · exact hhead b (by rw [hl]; exact List.mem_append_left _ hb)
        · rcases List.mem_cons.mp hb with hb | hb
          · rw [hb]
            exact not_lt.mp hgt
          · exact hhead b (by rw [hl]; exact List.mem_append_right _ hb)

/-- C16: for every attachments list ordered by non-decreasing priority of the types of its
items and every aux object a, the list after `add(a)` is again ordered by non-decreasing
priority, is the list before with a inserted at one place (so the previous items keep
their relative order), and contains a exactly once more than before. -/
theorem C16_add_keeps_priority_order (code : ImoTypeName → Int) (l : List ImoAuxObj)
    (a : ImoAuxObj) (hsorted : SortedByPriority code l) :
    SortedByPriority code (add code l a) ∧
    (∃ l1 l2, l = l1 ++ l2 ∧ add code l a = l1 ++ a :: l2) ∧
    (add code l a).count a = l.count a + 1 := by
  have hparts : ∃ l1 l2, l = l1 ++ l2 ∧ add code l a = l1 ++ a :: l2 := by
    unfold add
    by_cases hlow : get_priority code a.get_obj_type > 1000
    · simp only [hlow, if_true]
      exact ⟨l, [], by simp, rfl⟩
    · simp only [hlow, if_false]
      exact (insert_by_priority_spec code a l).1
  refine ⟨?_, hparts, ?_⟩
  · unfold add
    by_cases hlow : get_priority code a.get_obj_type > 1000
    · simp only [hlow, if_true]
      unfold SortedByPriority at hsorted ⊢
      refine List.pairwise_append.mpr ⟨hsorted, List.pairwise_singleton _ _, ?_⟩
      intro x _ y hy
      rw [List.mem_singleton.mp hy, (get_priority_bounds code a.get_obj_type).2 hlow]
      exact (get_priority_bounds code x.get_obj_type).1
    · simp only [hlow, if_false]
      exact (insert_by_priority_spec code a l).2 hsorted
  · obtain ⟨l1, l2, hl, hadd⟩ := hparts
    rw [hadd, hl]
    simp [List.count_append, List.count_cons]
    omega

/-- C16 with the sample values of the enumerators: adding a chord to the list
tie, tuplet, fermata, score text puts it between the tie and the tuplet. -/
theorem C16_add_keeps_priority_order_witness :
    SortedByPriority ImoObj.sampleCode sampleAttachments ∧
    SortedByPriority ImoObj.sampleCode (add ImoObj.sampleCode sampleAttachments sampleChord) ∧
    (add ImoObj.sampleCode sampleAttachments sampleChord).map (fun x => x.address) =
      [1, 5, 2, 3, 4] ∧
    (add ImoObj.sampleCode sampleAttachments sampleChord).count sampleChord =
      sampleAttachments.count sampleChord + 1 :=
  ⟨by decide,
    (C16_add_keeps_priority_order ImoObj.sampleCode sampleAttachments sampleChord
      (by decide)).1,
    by decide,
    (C16_add_keeps_priority_order ImoObj.sampleCode sampleAttachments sampleChord
      (by decide)).2.2⟩

end ImoAttachments

/-! ## Theorems about ImoInstrGroup -/

namespace ImoInstrGroup

/-- Where the loop of `get_instrument` stops: at once when `iInstr` is not above `i`; after
`iInstr - i` steps when the list is long enough; at the end of the list otherwise. -/
theorem get_instrument_loop_spec (iInstr : Int) (l : List Nat) (i : Int) :
    (iInstr ≤ i → get_instrument_loop iInstr l i = (l, i)) ∧
    (i < iInstr → iInstr - i ≤ (l.length : Int) →
      get_instrument_loop iInstr l i = (l.drop (iInstr - i).toNat, iInstr)) ∧
    (i < iInstr → (l.length : Int) < iInstr - i →
      get_instrument_loop iInstr l i = ([], i + (l.length : Int))) := by
  induction l generalizing i with
  | nil =>
    refine ⟨fun _ => rfl, fun h1 h2 => ?_, fun _ _ => ?_⟩
    · simp only [List.length_nil, Int.ofNat_zero] at h2
      omega
    · simp [get_instrument_loop]
  | cons pInstr rest ih =>
    obtain ⟨ih1, ih2, ih3⟩ := ih (i + 1)
    refine ⟨fun h => ?_, fun h1 h2 => ?_, fun h1 h2 => ?_⟩
    · have : ¬ i < iInstr := by omega
      simp [get_instrument_loop, this]
    · simp only [get_instrument_loop, if_pos h1]
      simp only [List.length_cons, Nat.cast_add, Nat.cast_one] at h2
      by_cases hlast : iInstr ≤ i + 1
      · rw [ih1 hlast]
        have h1' : iInstr = i + 1 := by omega
        have : (iInstr - i).toNat = 1 := by omega
        rw [this, h1']
        rfl
      · have hlt : i + 1 < iInstr := by omega
        rw [ih2 hlt (by omega)]
        have : (iInstr - i).toNat = (iInstr - (i + 1)).toNat + 1 := by omega
        rw [this]
        rfl
    · simp only [get_instrument_loop, if_pos h1]
      simp only [List.length_cons, Nat.cast_add, Nat.cast_one] at h2
      rw [ih3 (by omega) (by omega)]
      simp only [List.length_cons, Nat.cast_add, Nat.cast_one]
      congr 1
      omega

/-- C22 (the code at the failing input): on a group with n instruments
`get_instrument(n)` leaves the loop with `it == m_instruments.end()` and `i == iInstr`,
and evaluates `*it`, a read past the end of the list, instead of returning NULL. -/
theorem C22_get_instrument_at_count_reads_past_end (g : ImoInstrGroup) :
    g.get_instrument g.get_num_instruments = none ∧
    get_instrument { m_instruments := [] } 0 = none := by
  constructor
  · unfold get_instrument get_num_instruments
    by_cases hn : g.m_instruments.length = 0
    · have hnil : g.m_instruments = [] := List.length_eq_zero.mp hn
      rw [hnil]
      rfl
    · have hpos : (0 : Int) < (g.m_instruments.length : Int) := by omega
      rw [(get_instrument_loop_spec _ g.m_instruments 0).2.1 hpos (by omega)]
      simp
  · rfl

/-- The part of C22 that the code satisfies: for 0 <= i < n `get_instrument(i)` returns the
i-th instrument of the list, which `add_instrument` extends at the back, and for i < 0 and
for i > n it returns NULL; no read is past the end of the list in these cases. -/
theorem get_instrument_apart_from_count (g : ImoInstrGroup) (iInstr : Int) :
    (∀ pInstr, 0 ≤ iInstr → g.m_instruments[iInstr.toNat]? = some pInstr →
      g.get_instrument iInstr = some (some pInstr)) ∧
    (iInstr < 0 ∨ g.get_num_instruments < iInstr → g.get_instrument iInstr = some none) := by
  constructor
  · intro pInstr h0 hget
    have hlt : iInstr.toNat < g.m_instruments.length := by
      by_contra h
      rw [List.getElem?_eq_none (Nat.le_of_not_lt h)] at hget
      exact Option.noConfusion hget
    unfold get_instrument
    by_cases hzero : iInstr = 0
    · subst hzero
      rw [(get_instrument_loop_spec 0 g.m_instruments 0).1 (le_refl _)]
      cases hl : g.m_instruments with
      | nil => rw [hl] at hget; exact Option.noConfusion hget
      | cons a rest =>
        rw [hl] at hget
        simp only [Int.toNat_zero, List.getElem?_cons_zero, Option.some.injEq] at hget
        simp [hget]
    · have hpos : (0 : Int) < iInstr := by omega
      rw [(get_instrument_loop_spec iInstr g.m_instruments 0).2.1 hpos (by omega)]
      simp only [sub_zero, if_true]
      have hdrop : g.m_instruments.drop iInstr.toNat =
          pInstr :: g.m_instruments.drop (iInstr.toNat + 1) := by
        have hp : g.m_instruments[iInstr.toNat] = pInstr := by
          rw [List.getElem?_eq_getElem hlt] at hget
          exact Option.some.inj hget
        rw [← hp]
        exact List.drop_eq_getElem_cons hlt
      rw [hdrop]
  · intro h
    unfold get_instrument
    rcases h with h | h
    · rw [(get_instrument_loop_spec iInstr g.m_instruments 0).1 (by omega)]
      have : ¬ (0 : Int) = iInstr := by omega
      simp [this]
    · have hn : (g.m_instruments.length : Int) < iInstr := h
      rw [(get_instrument_loop_spec iInstr g.m_instruments 0).2.2 (by omega) (by omega)]
      have : ¬ ((g.m_instruments.length : Int) = iInstr) := by omega
      simp [this]

end ImoInstrGroup

namespace ImoAttachments

/-- The loop of `get_item` reaches the end of the list when `iItem` is at least the length
of the list. -/
theorem get_item_loop_at_end (l : List ImoAuxObj) (iItem : Int)
    (h : (l.length : Int) ≤ iItem) : get_item_loop l iItem = [] := by
  induction l generalizing iItem with
  | nil => rfl
  | cons item rest ih =>
    simp only [List.length_cons, Nat.cast_add, Nat.cast_one] at h
    have hpos : iItem > 0 := by omega
    simp only [get_item_loop, if_pos hpos]
    exact ih (iItem - 1) (by omega)

/-- The sibling `ImoAttachments::get_item` tests `it != m_attachments.end()` before
reading `*it`: for an index equal to the number of items, and for any greater index, it
returns NULL. -/
theorem get_item_at_count_is_null (l : List ImoAuxObj) (iItem : Int)
    (h : (l.length : Int) ≤ iItem) : get_item l iItem = none := by
  unfold get_item
  rw [get_item_loop_at_end l iItem h]

end ImoAttachments

/-! ## Theorems about relations between staff objects -/

namespace ImoRelObj

/-- Removing relation data does not touch the attachments of a staff object. -/
theorem remove_reldataobj_attachments (so : ImoStaffObj) (pData : Nat) :
    (so.remove_reldataobj pData).attachments = so.attachments := by
  unfold ImoStaffObj.remove_reldataobj
  cases so.reldataobjs with
  | none => rfl
  | some children =>
    by_cases h : (ImoStaffObj.remove_child children pData).length = 0
    · simp [h]
    · simp [h]

/-- One iteration of the loop of `remove_all`: when the staff object of the front pair has
an attachments child, `remove_but_not_delete_relation` returns, the relation has lost
exactly its front pair, and every staff object that had an attachments child still has
one. -/
theorem remove_front_pair (s : RelationState) (front : Nat × Option Nat)
    (rest : List (Nat × Option Nat)) (hlist : s.relation.m_relatedObjects = front :: rest)
    (hatt : (s.staffobjs front.1).attachments.isSome = true) :
    ∃ s1, ImoStaffObj.remove_but_not_delete_relation s front.1 = some s1 ∧
      s1.relation.m_relatedObjects = rest ∧
      ∀ pSO, (s.staffobjs pSO).attachments.isSome = true →
        (s1.staffobjs pSO).attachments.isSome = true := by
  have hso1 : ∀ so1 : ImoStaffObj,
      so1 = (match s.relation.get_data_for front.1 with
        | some pData => (s.staffobjs front.1).remove_reldataobj pData
        | none => s.staffobjs front.1) →
      so1.attachments = (s.staffobjs front.1).attachments := by
    intro so1 h
    rw [h]
    cases s.relation.get_data_for front.1 with
    | none => rfl
    | some pData => exact remove_reldataobj_attachments _ _
  obtain ⟨m_attachments, hm⟩ := Option.isSome_iff_exists.mp hatt
  have hrem : (s.relation.remove front.1).m_relatedObjects = rest := by
    simp [remove, hlist, remove_loop]
  unfold ImoStaffObj.remove_but_not_delete_relation
  simp only [hso1 _ rfl, hm]
  refine ⟨_, rfl, hrem, ?_⟩
  intro pSO hp
  by_cases heq : pSO = front.1
  · subst heq
    simp [Function.update_same]
  · simp only [Function.update_noteq heq]
    exact hp

/-- The loop of `remove_all` from a state in which the staff object of every pair has an
attachments child: with a bound of at least the number of pairs it returns with an empty
relation, and with a smaller bound k it has removed the first k pairs. -/
theorem remove_all_spec (bound : Nat) (s : RelationState)
    (hatt : ∀ pair ∈ s.relation.m_relatedObjects,
      (s.staffobjs pair.1).attachments.isSome = true) :
    (s.relation.m_relatedObjects.length ≤ bound →
      ∃ s1, remove_all bound s = LoopResult.returned s1 ∧
        s1.relation.m_relatedObjects = []) ∧
    (bound < s.relation.m_relatedObjects.length →
      ∃ sk, remove_all bound s = LoopResult.out_of_iterations sk ∧
        sk.relation.m_relatedObjects = s.relation.m_relatedObjects.drop bound) := by
  induction bound generalizing s with
  | zero =>
    cases hl : s.relation.m_relatedObjects with
    | nil =>
      refine ⟨fun _ => ⟨s, ?_, hl⟩, fun h => absurd h (by simp)⟩
      unfold remove_all
      rw [hl]
    | cons front rest =>
      refine ⟨fun h => absurd h (by simp), fun _ => ⟨s, ?_, by simp [hl]⟩⟩
      unfold remove_all
      rw [hl]
  | succ b ih =>
    cases hl : s.relation.m_relatedObjects with
    | nil =>
      refine ⟨fun _ => ⟨s, ?_, hl⟩, fun h => absurd h (by simp)⟩
      unfold remove_all
      rw [hl]
    | cons front rest =>
      obtain ⟨s1, hstep, hrest, hkeep⟩ := remove_front_pair s front rest hl
        (hatt front (by rw [hl]; exact List.mem_cons_self front rest))
      have hatt1 : ∀ pair ∈ s1.relation.m_relatedObjects,
          (s1.staffobjs pair.1).attachments.isSome = true := by
        intro pair hp
        rw [hrest] at hp
        exact hkeep pair.1 (hatt pair (by rw [hl]; exact List.mem_cons_of_mem front hp))
      have hrun : remove_all (b + 1) s = remove_all b s1 := by
        rw [remove_all]
        simp only [hl, hstep]
      obtain ⟨ih1, ih2⟩ := ih s1 hatt1
      rw [hrun]
      rw [hrest] at ih1 ih2
      refine ⟨fun h => ih1 (by simpa using h), fun h => ?_⟩
      obtain ⟨sk, hk, hdrop⟩ := ih2 (by simpa using h)
      exact ⟨sk, hk, by rw [hdrop]; rfl⟩

/-- C21: for a relation holding n staff objects, each of which has the relation among its
attachments, `remove_all()` terminates: run with any bound of at least n iterations it
returns, without dereferencing a null pointer, and the relation then holds no objects;
stopped after k < n iterations the loop has removed exactly the first k pairs, so every
iteration removes exactly one pair. -/
theorem C21_remove_all_terminates (s : RelationState) (hall : AllAttached s) :
    (∀ bound, s.relation.m_relatedObjects.length ≤ bound →
      ∃ s1, remove_all bound s = LoopResult.returned s1 ∧
        s1.relation.m_relatedObjects = []) ∧
    (∀ k, k < s.relation.m_relatedObjects.length →
      ∃ sk, remove_all k s = LoopResult.out_of_iterations sk ∧
        sk.relation.m_relatedObjects = s.relation.m_relatedObjects.drop k ∧
        sk.relation.m_relatedObjects.length = s.relation.m_relatedObjects.length - k) := by
  have hatt : ∀ pair ∈ s.relation.m_relatedObjects,
      (s.staffobjs pair.1).attachments.isSome = true := by
    intro pair hp
    have h := hall pair hp
    unfold has_attached at h
    cases hm : (s.staffobjs pair.1).attachments with
    | none => rw [hm] at h; exact Bool.noConfusion h
    | some m_attachments => rfl
  refine ⟨fun bound h => (remove_all_spec bound s hatt).1 h, fun k h => ?_⟩
  obtain ⟨sk, hk, hdrop⟩ := (remove_all_spec k s hatt).2 h
  exact ⟨sk, hk, hdrop, by rw [hdrop, List.length_drop]⟩

/-- C21 on the sample relation of two staff objects: both have the beam among their
attachments, `remove_all()` returns within two iterations with an empty relation, and
after one iteration one pair is left. -/
theorem C21_remove_all_terminates_witness :
    AllAttached sampleRelation ∧
    (∃ s1, remove_all 2 sampleRelation = LoopResult.returned s1 ∧
      s1.relation.m_relatedObjects = []) ∧
    (∃ sk, remove_all 1 sampleRelation = LoopResult.out_of_iterations sk ∧
      sk.relation.m_relatedObjects = sampleRelation.relation.m_relatedObjects.drop 1 ∧
      sk.relation.m_relatedObjects.length =
        sampleRelation.relation.m_relatedObjects.length - 1) :=
  ⟨by decide, (C21_remove_all_terminates sampleRelation (by decide)).1 2 (by decide),
    (C21_remove_all_terminates sampleRelation (by decide)).2 1 (by decide)⟩

end ImoRelObj

/-! ## Theorems about proportional spacing -/

end Lomse
